import Mathlib

/-!
# gziphandler: a shallow embedding of `httpgzip.go`

The Go package wraps an `http.Handler` so that responses whose content type is
on a fixed allow-list are gzip-compressed.  The package has two functions,
`gzipResponseWriter.Write` and `GzipHandler`, and one table,
`compressibleMimes`.  They are embedded below as pure functions over an
explicit response state (`World`).

The collaborators that live outside the package are modelled as follows.

* Header values are sequences of Unicode characters (`String`).  Go indexes
  strings by byte; the only index the package computes is that of the ASCII
  character `;`, and cutting a UTF-8 string at the first `;` gives the same
  text whether positions are counted in bytes or in characters.
* `http.Header` is an association list from (canonical) header names to value
  lists, with `Get`, `Set`, `Add` and `Del` as in `net/http`.
* `http.DetectContentType` and the `compress/gzip` writer are parameters
  (`Env`), the gzip writer as a state machine (`Codec`).
* The real `http.ResponseWriter` accumulates the bytes it accepts; an optional
  capacity (`room`) lets its `Write` fail with a short write.
* The wrapped handler is a finite interaction tree (`Prog`) over the
  `http.ResponseWriter` interface, chosen by the request.
-/

namespace Gziphandler

set_option maxRecDepth 100000

/-! ## Byte strings and results of `Write` -/

/-- A Go `[]byte`. -/
abbrev Bytes := List UInt8

/-- The `(int, error)` pair returned by an `io.Writer`; `err = none` is `nil`. -/
structure WriteResult where
  n : Nat
  err : Option String
  deriving DecidableEq, Repr

/-! ## The parts of package `strings` that the source calls -/

/-- The Go predicate `unicode.IsSpace`: the code points with the Unicode
White_Space property. -/
def unicode.IsSpace (c : Char) : Bool :=
  let n := c.toNat
  (0x09 ≤ n && n ≤ 0x0D) || n == 0x20 || n == 0x85 || n == 0xA0 || n == 0x1680 ||
    (0x2000 ≤ n && n ≤ 0x200A) || n == 0x2028 || n == 0x2029 || n == 0x202F ||
    n == 0x205F || n == 0x3000

/-- Worker of `strings.Index`: the first position, counted from `i`, at which
`sub` starts, or `-1`. -/
def strings.indexFrom (sub : List Char) : List Char → Nat → Int
  | [], i => if sub = [] then (i : Int) else -1
  | c :: s, i => if sub.isPrefixOf (c :: s) then (i : Int) else strings.indexFrom sub s (i + 1)

/-- The Go function `strings.Index(s, substr)`: index of the first instance of
`substr` in `s`, or `-1` if `substr` is not present. -/
def strings.Index (s substr : String) : Int :=
  strings.indexFrom substr.toList s.toList 0

/-- The Go function `strings.Contains(s, substr)`, which is
`strings.Index(s, substr) >= 0`. -/
def strings.Contains (s substr : String) : Bool :=
  decide (0 ≤ strings.Index s substr)

/-- The Go function `strings.TrimSpace`: `s` without leading and trailing white
space, as defined by Unicode. -/
def strings.TrimSpace (s : String) : String :=
  String.mk ((s.toList.dropWhile unicode.IsSpace).rdropWhile unicode.IsSpace)

/-- The Go slice expression `s[0:i]` for `0 ≤ i ≤ len(s)`. -/
def strings.slice0 (s : String) (i : Int) : String :=
  String.mk (s.toList.take i.toNat)

/-! ## `http.Header` -/

/-- The Go type `http.Header`, a `map[string][]string`; a name occurs at most
once in the list built by `Set`, `Add` and `Del`, and lookup takes the first
entry. -/
structure Header where
  entries : List (String × List String)
  deriving DecidableEq, Repr

namespace Header

/-- The empty header map. -/
def empty : Header := ⟨[]⟩

/-- The map access `h[key]`: the values stored under `key`, `[]` (Go's `nil`)
when there is no entry. -/
def values (h : Header) (key : String) : List String :=
  (h.entries.lookup key).getD []

/-- Whether the map has an entry for `key`. -/
def has (h : Header) (key : String) : Bool :=
  (h.entries.lookup key).isSome

/-- The map assignment `h[key] = vs`. -/
def put (h : Header) (key : String) (vs : List String) : Header :=
  ⟨(key, vs) :: h.entries.filter (fun e => e.1 != key)⟩

/-- The method `Header.Get`: the first value associated with the key, or `""`. -/
def Get (h : Header) (key : String) : String :=
  (h.values key).headD ""

/-- The method `Header.Set`: replaces any existing values of the key by the
single value `value`. -/
def Set (h : Header) (key value : String) : Header :=
  h.put key [value]

/-- The method `Header.Add`: appends `value` to the values of the key. -/
def Add (h : Header) (key value : String) : Header :=
  h.put key (h.values key ++ [value])

/-- The method `Header.Del`: deletes the values associated with the key. -/
def Del (h : Header) (key : String) : Header :=
  ⟨h.entries.filter (fun e => e.1 != key)⟩

end Header

/-! ## The allow-list (`httpgzip.go`, lines 20-44) -/

/-- The table `compressibleMimes`, a `map[string]bool`, in source order. -/
def compressibleMimes : List (String × Bool) :=
  [ ("text/html", true),
    ("application/x-javascript", true),
    ("text/css", true),
    ("application/javascript", true),
    ("text/javascript", true),
    ("text/plain", true),
    ("text/xml", true),
    ("application/json", true),
    ("application/vnd.ms-fontobject", true),
    ("application/x-font-opentype", true),
    ("application/x-font-truetype", true),
    ("application/x-font-ttf", true),
    ("application/xml", true),
    ("font/eot", true),
    ("font/opentype", true),
    ("font/otf", true),
    ("image/svg+xml", true),
    ("image/vnd.microsoft.icon", true),
    ("application/vnd.geo+json", true),
    ("application/cap+xml", true),
    ("text/csv", true) ]

/-- The map index expression `compressibleMimes[contentType]`: the stored
value, or the zero value `false` when the key is absent. -/
def compressibleMimes.index (contentType : String) : Bool :=
  (compressibleMimes.lookup contentType).getD false

/-- Lines 52-58 of `Write`: the base content type computed from the value of
the `Content-Type` header. -/
def baseContentType (contentType : String) : String :=
  let i := strings.Index contentType ";"
  let contentType := if i > 0 then strings.slice0 contentType i else contentType
  strings.TrimSpace contentType

/-! ## Response state -/

/-- One observable step of a request: a call of one of the writers, or the
invocation of the wrapped handler.  Calls carry the response header map as it
stands when the call is made. -/
inductive Event where
  /-- Call of `gzip.NewWriter(w)`. -/
  | newWriter : Event
  /-- Call of `h.ServeHTTP`; the flag tells whether the handler was given the
  `gzipResponseWriter` (`true`) or the real `http.ResponseWriter` (`false`). -/
  | serveHTTP (sniffing : Bool) (hdr : Header) : Event
  /-- Call of `Write(b)` on the gzip writer. -/
  | gzWrite (hdr : Header) (b : Bytes) : Event
  /-- Call of `Write(b)` on the real `http.ResponseWriter`, made by the handler
  or by `gzipResponseWriter.Write` (not by the gzip writer). -/
  | rwWrite (hdr : Header) (b : Bytes) : Event
  /-- Call of `Close()` on the gzip writer. -/
  | gzClose : Event
  deriving DecidableEq, Repr

/-- The `compress/gzip` writer as a state machine over its internal state `σ`,
together with the matching decompressor. -/
structure Codec (σ : Type) where
  /-- State of a writer returned by `gzip.NewWriter`. -/
  init : σ
  /-- Consume one chunk; the second component is what the writer hands to the
  underlying writer during this call. -/
  write : σ → Bytes → σ × Bytes
  /-- What `Close` hands to the underlying writer (flush and footer). -/
  close : σ → Bytes
  /-- The matching decompressor, `none` on malformed input. -/
  decode : Bytes → Option Bytes

/-- Everything the gzip writer hands to the underlying writer when the chunks
are written in order, starting in state `s`, and the writer is then closed. -/
def Codec.stream {σ : Type} (cd : Codec σ) : σ → List Bytes → Bytes
  | s, [] => cd.close s
  | s, c :: cs => (cd.write s c).2 ++ cd.stream (cd.write s c).1 cs

/-- The library collaborators of the package. -/
structure Env (σ : Type) where
  /-- The function `http.DetectContentType`. -/
  detect : Bytes → String
  /-- The `compress/gzip` writer. -/
  codec : Codec σ

/-- State of a `*gzip.Writer`: codec state, the sticky error `z.err`, and the
flag `z.closed`. -/
structure GzWriter (σ : Type) where
  st : σ
  err : Option String
  closed : Bool
  deriving DecidableEq

/-- The state a request works on: the real `http.ResponseWriter` (header map,
bytes accepted so far, remaining capacity of the transport with `none` for
unlimited), the gzip writer, and the log of calls. -/
structure World (σ : Type) where
  header : Header
  body : Bytes
  room : Option Nat
  gz : GzWriter σ
  trace : List Event
  deriving DecidableEq

/-- The incoming `*http.Request`; only its header map is read. -/
structure Request where
  header : Header
  deriving DecidableEq, Repr

variable {σ : Type}

/-- Append an event to the log. -/
def World.log (w : World σ) (e : Event) : World σ :=
  { w with trace := w.trace ++ [e] }

/-- The transport behind the real `http.ResponseWriter` takes the bytes `p`:
all of them while there is room, otherwise as many as fit, with an error. -/
def World.accept (w : World σ) (p : Bytes) : World σ × WriteResult :=
  match w.room with
  | none => ({ w with body := w.body ++ p }, ⟨p.length, none⟩)
  | some k =>
    if p.length ≤ k then
      ({ w with body := w.body ++ p, room := some (k - p.length) }, ⟨p.length, none⟩)
    else
      ({ w with body := w.body ++ p.take k, room := some 0 }, ⟨k, some "short write"⟩)

/-- The method `Write` of the real `http.ResponseWriter`, as called by the
handler or by `gzipResponseWriter.Write`. -/
def ResponseWriter.Write (w : World σ) (b : Bytes) : World σ × WriteResult :=
  (w.log (Event.rwWrite w.header b)).accept b

/-- The call `gzip.NewWriter(w)`: a fresh writer on top of the real
`http.ResponseWriter`; nothing is written yet. -/
def gzip.NewWriter (cd : Codec σ) (w : World σ) : World σ :=
  { w.log Event.newWriter with gz := { st := cd.init, err := none, closed := false } }

/-- The method `(*gzip.Writer).Write`: returns `0, z.err` once an error has
occurred; otherwise consumes `p`, hands the produced bytes to the underlying
writer and reports `len(p), nil`, or `0, err` when the underlying write fails. -/
def gzip.Writer.Write (cd : Codec σ) (w : World σ) (p : Bytes) : World σ × WriteResult :=
  let w := w.log (Event.gzWrite w.header p)
  match w.gz.err with
  | some e => (w, ⟨0, some e⟩)
  | none =>
    let so := cd.write w.gz.st p
    let wr := w.accept so.2
    match wr.2.err with
    | some e => ({ wr.1 with gz := { st := so.1, err := some e, closed := w.gz.closed } }, ⟨0, some e⟩)
    | none => ({ wr.1 with gz := { st := so.1, err := none, closed := w.gz.closed } }, ⟨p.length, none⟩)

/-- The method `(*gzip.Writer).Close`: nothing happens after an error or a
previous `Close`; otherwise the pending data and the footer go to the
underlying writer. The error it returns is discarded by the deferred call. -/
def gzip.Writer.Close (cd : Codec σ) (w : World σ) : World σ :=
  let w := w.log Event.gzClose
  match w.gz.err with
  | some _ => w
  | none =>
    if w.gz.closed then w
    else
      let wr := w.accept (cd.close w.gz.st)
      { wr.1 with gz := { st := w.gz.st, err := wr.2.err, closed := true } }

/-! ## The two functions of the package -/

/-- The method `(*gzipResponseWriter).Write` (`httpgzip.go`, lines 46-68).  The
receiver is the pair of the gzip writer and the real response writer, both
held in `w`. -/
def gzipResponseWriter.Write (E : Env σ) (w : World σ) (b : Bytes) : World σ × WriteResult :=
  let w :=
    if w.header.Get "Content-Type" = "" then
      { w with header := w.header.Set "Content-Type" (E.detect b) }
    else w
  let contentType := baseContentType (w.header.Get "Content-Type")
  match compressibleMimes.index contentType with
  | true =>
    let w := { w with header := w.header.Set "Content-Encoding" "gzip" }
    gzip.Writer.Write E.codec w b
  | false => ResponseWriter.Write w b

/-- How a handler ends. -/
inductive Outcome where
  | returned : Outcome
  | panicked : Outcome
  deriving DecidableEq, Repr

/-- The body of a handler's `ServeHTTP(w, r)` for one request: a finite tree of
calls on the `http.ResponseWriter` interface.  Header names are given in
canonical form.  The continuation after a read or a write may depend on what
the call returned. -/
inductive Prog where
  /-- The handler returns. -/
  | ret : Prog
  /-- The handler panics. -/
  | panic : Prog
  /-- The call `w.Header().Set(key, value)`. -/
  | setHeader (key value : String) (next : Prog) : Prog
  /-- The call `w.Header().Add(key, value)`. -/
  | addHeader (key value : String) (next : Prog) : Prog
  /-- The call `w.Header().Del(key)`. -/
  | delHeader (key : String) (next : Prog) : Prog
  /-- The handler reads the header map `w.Header()`. -/
  | getHeader (next : Header → Prog) : Prog
  /-- The call `w.Write(b)`. -/
  | write (b : Bytes) (next : WriteResult → Prog) : Prog

/-- Run a handler body against a writer whose `Write` method is `wr`; `Header()`
is the header map of the real response writer in both branches of
`GzipHandler`. -/
def Prog.run (wr : World σ → Bytes → World σ × WriteResult) : Prog → World σ → World σ × Outcome
  | .ret, w => (w, Outcome.returned)
  | .panic, w => (w, Outcome.panicked)
  | .setHeader key value next, w => Prog.run wr next { w with header := w.header.Set key value }
  | .addHeader key value next, w => Prog.run wr next { w with header := w.header.Add key value }
  | .delHeader key next, w => Prog.run wr next { w with header := w.header.Del key }
  | .getHeader next, w => Prog.run wr (next w.header) w
  | .write b next, w => Prog.run wr (next (wr w b).2) (wr w b).1

/-- An `http.Handler`: the body it runs for a given request. -/
abbrev Handler := Request → Prog

/-- The call `h.ServeHTTP(w, r)` with a writer whose `Write` method is `wr`. -/
def Handler.ServeHTTP (h : Handler) (sniffing : Bool)
    (wr : World σ → Bytes → World σ × WriteResult) (w : World σ) (r : Request) :
    World σ × Outcome :=
  (h r).run wr (w.log (Event.serveHTTP sniffing w.header))

/-- The handler returned by `GzipHandler(h)` (`httpgzip.go`, lines 71-86),
applied to the response writer `w` and the request `r`.  The deferred
`gz.Close()` runs when the function is left, also when the handler panics;
the panic then propagates. -/
def GzipHandler (E : Env σ) (h : Handler) (w : World σ) (r : Request) : World σ × Outcome :=
  let w := { w with header := w.header.Add "Vary" "Accept-Encoding" }
  match strings.Contains (r.header.Get "Accept-Encoding") "gzip" with
  | true =>
    let w := gzip.NewWriter E.codec w
    let res := h.ServeHTTP true (gzipResponseWriter.Write E) w r
    (gzip.Writer.Close E.codec res.1, res.2)
  | false => h.ServeHTTP false ResponseWriter.Write w r

/-! ## A concrete instance of the collaborators

The theorems below hold for every `Env`.  To evaluate the package on concrete
requests, the collaborators are instantiated with a gzip writer that emits
stored (uncompressed) DEFLATE blocks inside the framing of `compress/gzip`, and
with a small content sniffer. -/

/-- The ASCII bytes of a string literal. -/
def asciiBytes (s : String) : Bytes :=
  s.toList.map (fun c => UInt8.ofNat c.toNat)

/-- One shift step of the reflected CRC-32 with the IEEE polynomial. -/
def crc32.shift (crc : Nat) : Nat :=
  if crc % 2 = 1 then (crc / 2) ^^^ 0xEDB88320 else crc / 2

/-- The CRC register after one more byte. -/
def crc32.update (crc : Nat) (b : UInt8) : Nat :=
  crc32.shift (crc32.shift (crc32.shift (crc32.shift (crc32.shift (crc32.shift
    (crc32.shift (crc32.shift (crc ^^^ b.toNat))))))))

/-- The Go function `crc32.ChecksumIEEE`. -/
def crc32.ChecksumIEEE (data : Bytes) : Nat :=
  (data.foldl crc32.update 0xFFFFFFFF ^^^ 0xFFFFFFFF) % 2 ^ 32

/-- Little-endian encoding in two bytes. -/
def le16 (n : Nat) : Bytes :=
  [UInt8.ofNat (n % 256), UInt8.ofNat (n / 256 % 256)]

/-- Little-endian encoding in four bytes. -/
def le32 (n : Nat) : Bytes :=
  [UInt8.ofNat (n % 256), UInt8.ofNat (n / 256 % 256), UInt8.ofNat (n / 65536 % 256),
    UInt8.ofNat (n / 16777216 % 256)]

/-- Value of a little-endian byte sequence. -/
def leValue : Bytes → Nat
  | [] => 0
  | b :: bs => b.toNat + 256 * leValue bs

/-- The ten-byte member header written by `compress/gzip` when no name,
comment, extra field or modification time is set: magic, method 8 (deflate),
no flags, zero time, no extra flags, unknown OS. -/
def gzipHeader : Bytes :=
  [0x1f, 0x8b, 0x08, 0x00, 0x00, 0x00, 0x00, 0x00, 0x00, 0xff]

/-- The final, empty stored DEFLATE block. -/
def finalStoredBlock : Bytes :=
  [0x01, 0x00, 0x00, 0xff, 0xff]

/-- The data as non-final stored DEFLATE blocks of at most 65535 bytes each;
the first argument bounds the number of blocks. -/
def storedBlocks : Nat → Bytes → Bytes
  | 0, _ => []
  | fuel + 1, data =>
    if data = [] then []
    else
      let blk := data.take 65535
      [0x00] ++ le16 blk.length ++ le16 (blk.length ^^^ 0xFFFF) ++ blk ++
        storedBlocks fuel (data.drop 65535)

/-- The footer of a gzip member: CRC-32 and length modulo 2^32 of the
uncompressed data. -/
def gzipFooter (data : Bytes) : Bytes :=
  le32 (crc32.ChecksumIEEE data) ++ le32 (data.length % 2 ^ 32)

/-- State of the stored-block gzip writer: whether the header went out, and
the input that is still buffered. -/
structure StoredState where
  wroteHeader : Bool
  pending : Bytes
  deriving DecidableEq, Repr

/-- Read stored DEFLATE blocks up to and including the final one; returns the
data and the unread rest. -/
def inflateStored : Nat → Bytes → Option (Bytes × Bytes)
  | 0, _ => none
  | fuel + 1, input =>
    match input with
    | h :: l0 :: l1 :: n0 :: n1 :: rest =>
      let len := leValue [l0, l1]
      if h.toNat / 2 % 4 ≠ 0 ∨ leValue [n0, n1] ≠ len ^^^ 0xFFFF ∨ rest.length < len then none
      else if h.toNat % 2 = 1 then some (rest.take len, rest.drop len)
      else
        match inflateStored fuel (rest.drop len) with
        | some (data, tail) => some (rest.take len ++ data, tail)
        | none => none
    | _ => none

/-- Decompressor for single gzip members whose DEFLATE stream consists of
stored blocks: checks header, block structure, CRC-32 and length. -/
def gunzipStored (input : Bytes) : Option Bytes :=
  if input.take 10 = gzipHeader then
    match inflateStored input.length (input.drop 10) with
    | some (data, tail) => if tail = gzipFooter data then some data else none
    | none => none
  else none

/-- A gzip writer in the manner of `compress/gzip`: the first `Write` sends the
member header, input is buffered, and `Close` sends the header if it is still
due, the buffered data as stored blocks, the final block and the footer. -/
def storedGzip : Codec StoredState where
  init := ⟨false, []⟩
  write := fun s p =>
    (⟨true, s.pending ++ p⟩, if s.wroteHeader then [] else gzipHeader)
  close := fun s =>
    (if s.wroteHeader then [] else gzipHeader) ++ storedBlocks (s.pending.length + 1) s.pending ++
      finalStoredBlock ++ gzipFooter s.pending
  decode := gunzipStored

/-- A small content sniffer in the manner of `http.DetectContentType`: the PNG
signature, a leading HTML tag, and otherwise text or binary data. -/
def detectLite (data : Bytes) : String :=
  if (asciiBytes "\x89PNG\r\n\x1a\n").isPrefixOf data then "image/png"
  else if (asciiBytes "<html").isPrefixOf data then "text/html; charset=utf-8"
  else if data.any (fun b => b.toNat < 9) then "application/octet-stream"
  else "text/plain; charset=utf-8"

/-- The concrete collaborators. -/
def liteEnv : Env StoredState where
  detect := detectLite
  codec := storedGzip

/-- A response writer that has not been used: no headers, no body, unlimited
capacity. -/
def freshWorld : World StoredState where
  header := Header.empty
  body := []
  room := none
  gz := ⟨storedGzip.init, none, false⟩
  trace := []

/-- A request with the single header `Accept-Encoding: v`. -/
def requestAccepting (v : String) : Request :=
  ⟨Header.empty.Set "Accept-Encoding" v⟩

/-- The handler body that writes the chunks in order, ignoring what `Write`
returns, and then returns. -/
def writeChunks : List Bytes → Prog
  | [] => Prog.ret
  | c :: cs => Prog.write c (fun _ => writeChunks cs)

/-- The handler body that sets `Content-Type` to `contentType` and then writes
the chunks in order. -/
def declareAndWrite (contentType : String) (chunks : List Bytes) : Prog :=
  Prog.setHeader "Content-Type" contentType (writeChunks chunks)

/-! ## Definitions that follow the wording of the specification -/

/-- The base content type as the specification words it: the header value,
truncated at the first `;` if one is present, then trimmed. -/
def specBaseContentType (v : String) : String :=
  strings.TrimSpace (String.mk (v.toList.takeWhile (fun c => c != ';')))

/-- The support check as the specification words it: a substring test that
ignores letter case. -/
def specAcceptsGzip (acceptEncoding : String) : Bool :=
  decide ("gzip".toList <:+: acceptEncoding.toList.map Char.toLower)

/-- The 21 content types of the allow-list. -/
def allowList : List String :=
  compressibleMimes.map Prod.fst

/-- The value of `Content-Type` that `Write` reads at line 52: the value found
on entry, or the sniffed type when that value is empty. -/
def effectiveContentType (E : Env σ) (w : World σ) (b : Bytes) : String :=
  if w.header.Get "Content-Type" = "" then E.detect b else w.header.Get "Content-Type"

/-- The header map after lines 47-49 of `Write`: `Content-Type` is set to the
sniffed type when `Get` finds it empty. -/
def sniffedHeader (E : Env σ) (w : World σ) (b : Bytes) : Header :=
  if w.header.Get "Content-Type" = "" then w.header.Set "Content-Type" (E.detect b)
  else w.header

/-- The switch of `Write` at line 60: whether the chunk `b`, written in state
`w`, goes to the gzip writer. -/
def routesToGzip (E : Env σ) (w : World σ) (b : Bytes) : Bool :=
  compressibleMimes.index (baseContentType (effectiveContentType E w b))

/-- Whether an event is a `Write` call on the gzip writer. -/
def Event.isGzWrite : Event → Bool
  | Event.gzWrite _ _ => true
  | _ => false

/-- Whether an event is a direct `Write` call on the real response writer. -/
def Event.isRwWrite : Event → Bool
  | Event.rwWrite _ _ => true
  | _ => false

/-- The bytes passed by a `Write` call; empty for the other events. -/
def Event.payload : Event → Bytes
  | Event.gzWrite _ b => b
  | Event.rwWrite _ b => b
  | _ => []

/-- The handler body never sets, adds to or deletes the header entry `key`
itself, whatever its reads and writes return. -/
def Prog.keeps (key : String) : Prog → Prop
  | Prog.ret => True
  | Prog.panic => True
  | Prog.setHeader k _ next => k ≠ key ∧ Prog.keeps key next
  | Prog.addHeader k _ next => k ≠ key ∧ Prog.keeps key next
  | Prog.delHeader k next => k ≠ key ∧ Prog.keeps key next
  | Prog.getHeader next => ∀ h : Header, Prog.keeps key (next h)
  | Prog.write _ next => ∀ r : WriteResult, Prog.keeps key (next r)

/-- The chunks that the handler body passes to `Write`, in call order, when it
runs from state `w` against a writer whose `Write` method is `wr`. -/
def Prog.written (wr : World σ → Bytes → World σ × WriteResult) : Prog → World σ → List Bytes
  | Prog.ret, _ => []
  | Prog.panic, _ => []
  | Prog.setHeader key value next, w =>
    Prog.written wr next { w with header := w.header.Set key value }
  | Prog.addHeader key value next, w =>
    Prog.written wr next { w with header := w.header.Add key value }
  | Prog.delHeader key next, w => Prog.written wr next { w with header := w.header.Del key }
  | Prog.getHeader next, w => Prog.written wr (next w.header) w
  | Prog.write b next, w => b :: Prog.written wr (next (wr w b).2) (wr w b).1

/-! ## Facts about the header map -/

theorem lookup_filter_ne (l : List (String × List String)) (k key : String) (hk : k ≠ key) :
    (l.filter (fun e => e.1 != key)).lookup k = l.lookup k := by
  induction l with
  | nil => rfl
  | cons e l ih =>
    obtain ⟨a, vs⟩ := e
    by_cases ha : a = key
    · subst ha
      have h1 : (k == a) = false := by simpa using hk
      simp [List.filter_cons, List.lookup_cons, h1, ih]
    · have h2 : (a != key) = true := by simpa using ha
      simp only [List.filter_cons, h2, if_true, List.lookup_cons, ih]

theorem lookup_filter_self (l : List (String × List String)) (key : String) :
    (l.filter (fun e => e.1 != key)).lookup key = none := by
  induction l with
  | nil => rfl
  | cons e l ih =>
    obtain ⟨a, vs⟩ := e
    by_cases ha : a = key
    · subst ha
      simp [List.filter_cons, ih]
    · have h2 : (a != key) = true := by simpa using ha
      have h3 : (key == a) = false := by simpa using fun h : key = a => ha h.symm
      simp only [List.filter_cons, h2, if_true, List.lookup_cons, h3, ih]

theorem Header.values_put (h : Header) (key k : String) (vs : List String) :
    (h.put key vs).values k = if k = key then vs else h.values k := by
  unfold Header.put Header.values
  by_cases hk : k = key
  · subst hk
    simp [List.lookup_cons]
  · have h1 : (k == key) = false := by simpa using hk
    simp only [List.lookup_cons, h1, lookup_filter_ne _ _ _ hk, if_neg hk]

theorem Header.values_Set (h : Header) (key value k : String) :
    (h.Set key value).values k = if k = key then [value] else h.values k :=
  Header.values_put h key k [value]

theorem Header.values_Add (h : Header) (key value k : String) :
    (h.Add key value).values k = if k = key then h.values key ++ [value] else h.values k :=
  Header.values_put h key k _

theorem Header.values_Del (h : Header) (key k : String) :
    (h.Del key).values k = if k = key then [] else h.values k := by
  unfold Header.Del Header.values
  by_cases hk : k = key
  · subst hk
    simp [lookup_filter_self]
  · simp only [lookup_filter_ne _ _ _ hk, if_neg hk]

theorem Header.Get_Set (h : Header) (key value k : String) :
    (h.Set key value).Get k = if k = key then value else h.Get k := by
  unfold Header.Get
  rw [Header.values_Set]
  split <;> rfl

theorem Header.has_put (h : Header) (key k : String) (vs : List String) :
    (h.put key vs).has k = if k = key then true else h.has k := by
  unfold Header.put Header.has
  by_cases hk : k = key
  · subst hk
    simp [List.lookup_cons]
  · have h1 : (k == key) = false := by simpa using hk
    simp only [List.lookup_cons, h1, lookup_filter_ne _ _ _ hk, if_neg hk]

/-! ## Facts about the string functions -/

theorem strings.indexFrom_nonneg_iff (sub : List Char) (s : List Char) (i : Nat) :
    0 ≤ strings.indexFrom sub s i ↔ sub <:+: s := by
  induction s generalizing i with
  | nil =>
    unfold strings.indexFrom
    by_cases h : sub = []
    · simp [h]
    · simp [h]
  | cons c s ih =>
    unfold strings.indexFrom
    rw [List.infix_cons_iff]
    by_cases h : sub.isPrefixOf (c :: s) = true
    · rw [if_pos h]
      have hp : sub <+: c :: s := List.isPrefixOf_iff_prefix.mp h
      simp [hp]
    · rw [if_neg h, ih]
      have hp : ¬ sub <+: c :: s := fun hp => h (List.isPrefixOf_iff_prefix.mpr hp)
      simp [hp]

theorem strings.Contains_iff (s substr : String) :
    strings.Contains s substr = true ↔ substr.toList <:+: s.toList := by
  unfold strings.Contains strings.Index
  rw [decide_eq_true_iff]
  exact strings.indexFrom_nonneg_iff _ _ _

theorem strings.indexFrom_semicolon (s : List Char) (i : Nat) :
    (';' ∉ s ∧ strings.indexFrom [';'] s i = -1) ∨
      (';' ∈ s ∧ strings.indexFrom [';'] s i = ((i + (s.takeWhile (fun c => c != ';')).length : Nat) : Int)) := by
  induction s generalizing i with
  | nil =>
    left
    simp [strings.indexFrom]
  | cons c s ih =>
    by_cases hc : c = ';'
    · right
      subst hc
      simp [strings.indexFrom, List.isPrefixOf]
    · have hne : (c != ';') = true := by simpa using hc
      have hpre : List.isPrefixOf [';'] (c :: s) = false := by
        simp only [List.isPrefixOf, Bool.and_true]
        simpa using fun h : ';' = c => hc h.symm
      have hstep : strings.indexFrom [';'] (c :: s) i = strings.indexFrom [';'] s (i + 1) := by
        rw [strings.indexFrom, hpre]
        simp
      rcases ih (i + 1) with ⟨hn, he⟩ | ⟨hm, he⟩
      · left
        refine ⟨?_, by rw [hstep, he]⟩
        simp only [List.mem_cons, not_or]
        exact ⟨fun h => hc h.symm, hn⟩
      · right
        refine ⟨List.mem_cons_of_mem _ hm, ?_⟩
        rw [hstep, he, List.takeWhile_cons, hne]
        simp only [if_true, List.length_cons]
        congr 1
        omega

theorem take_length_takeWhile (p : Char → Bool) (s : List Char) :
    s.take (s.takeWhile p).length = s.takeWhile p :=
  (List.prefix_iff_eq_take.mp (List.takeWhile_prefix p)).symm

theorem takeWhile_ne_of_not_mem (s : List Char) (h : ';' ∉ s) :
    s.takeWhile (fun c => c != ';') = s := by
  rw [List.takeWhile_eq_self_iff]
  intro c hc
  simpa using fun e : c = ';' => h (e ▸ hc)

/-! ## The base content type (C7) -/

theorem baseContentType_eq (v : String) :
    baseContentType v =
      strings.TrimSpace
        (if v.toList.head? = some ';' then v
          else String.mk (v.toList.takeWhile (fun c => c != ';'))) := by
  obtain ⟨s⟩ := v
  unfold baseContentType strings.Index strings.slice0
  simp only [String.toList]
  cases s with
  | nil => simp [strings.indexFrom]
  | cons c s =>
    by_cases hc : c = ';'
    · subst hc
      simp [strings.indexFrom, List.isPrefixOf]
    · have hh : ¬ (c :: s).head? = some ';' := by simpa using hc
      rw [if_neg hh]
      rcases strings.indexFrom_semicolon (c :: s) 0 with ⟨hn, he⟩ | ⟨hm, he⟩
      · rw [he, takeWhile_ne_of_not_mem _ hn]
        simp
      · rw [he]
        have hne : (c != ';') = true := by simpa using hc
        have hpos : 0 < ((c :: s).takeWhile (fun c => c != ';')).length := by
          rw [List.takeWhile_cons, hne]
          simp
        have hgt : ((0 + ((c :: s).takeWhile (fun c => c != ';')).length : Nat) : Int) > 0 := by
          omega
        rw [if_pos hgt]
        simp only [Nat.zero_add, Int.toNat_ofNat, take_length_takeWhile]

/-- C7 (as stated, refuted): for the header value `;charset=utf-8` the source
keeps the whole value as base type, the specification's wording gives `""`. -/
theorem C7_counterexample_leading_semicolon :
    baseContentType ";charset=utf-8" = ";charset=utf-8" ∧
      specBaseContentType ";charset=utf-8" = "" ∧
      baseContentType ";charset=utf-8" ≠ specBaseContentType ";charset=utf-8" := by
  decide

/-- C7 (amended): the base content type that `Write` looks up is the header
value cut at its first `;` when that `;` stands at an index greater than 0, the
whole value when there is no `;` or the value begins with `;`, in each case
with surrounding white space trimmed; whenever the value does not begin with
`;` this is the specification's base type. -/
theorem C7_baseContentType_truncates_after_index_zero (v : String) :
    baseContentType v =
        strings.TrimSpace
          (if v.toList.head? = some ';' then v
            else String.mk (v.toList.takeWhile (fun c => c != ';'))) ∧
      (v.toList.head? ≠ some ';' → baseContentType v = specBaseContentType v) ∧
      (v.toList.head? = some ';' → baseContentType v = strings.TrimSpace v) := by
  refine ⟨baseContentType_eq v, ?_, ?_⟩
  · intro h
    rw [baseContentType_eq, if_neg h]
    rfl
  · intro h
    rw [baseContentType_eq, if_pos h]

/-! ## Facts about the writers -/

theorem World.accept_header (w : World σ) (p : Bytes) : (w.accept p).1.header = w.header := by
  unfold World.accept
  split
  · rfl
  · split <;> rfl

theorem World.accept_trace (w : World σ) (p : Bytes) : (w.accept p).1.trace = w.trace := by
  unfold World.accept
  split
  · rfl
  · split <;> rfl

theorem World.accept_gz (w : World σ) (p : Bytes) : (w.accept p).1.gz = w.gz := by
  unfold World.accept
  split
  · rfl
  · split <;> rfl

theorem World.accept_unlimited (w : World σ) (p : Bytes) (h : w.room = none) :
    w.accept p = ({ w with body := w.body ++ p }, ⟨p.length, none⟩) := by
  unfold World.accept
  rw [h]

theorem rwWrite_header (w : World σ) (b : Bytes) :
    (ResponseWriter.Write w b).1.header = w.header := by
  unfold ResponseWriter.Write
  rw [World.accept_header]
  rfl

theorem rwWrite_trace (w : World σ) (b : Bytes) :
    (ResponseWriter.Write w b).1.trace = w.trace ++ [Event.rwWrite w.header b] := by
  unfold ResponseWriter.Write
  rw [World.accept_trace]
  rfl

theorem rwWrite_gz (w : World σ) (b : Bytes) :
    (ResponseWriter.Write w b).1.gz = w.gz := by
  unfold ResponseWriter.Write
  rw [World.accept_gz]
  rfl

theorem gzWrite_header (cd : Codec σ) (w : World σ) (p : Bytes) :
    (gzip.Writer.Write cd w p).1.header = w.header := by
  unfold gzip.Writer.Write
  simp only
  split
  · rfl
  · split
    · exact World.accept_header _ _
    · exact World.accept_header _ _

theorem gzWrite_trace (cd : Codec σ) (w : World σ) (p : Bytes) :
    (gzip.Writer.Write cd w p).1.trace = w.trace ++ [Event.gzWrite w.header p] := by
  unfold gzip.Writer.Write
  simp only
  split
  · rfl
  · split
    · exact World.accept_trace _ _
    · exact World.accept_trace _ _

theorem sniffedHeader_Get (E : Env σ) (w : World σ) (b : Bytes) :
    (sniffedHeader E w b).Get "Content-Type" = effectiveContentType E w b := by
  unfold sniffedHeader effectiveContentType
  split
  · rw [Header.Get_Set, if_pos rfl]
  · rfl

theorem sniffWrite_compressible (E : Env σ) (w : World σ) (b : Bytes)
    (h : compressibleMimes.index (baseContentType (effectiveContentType E w b)) = true) :
    gzipResponseWriter.Write E w b =
      gzip.Writer.Write E.codec
        { w with header := (sniffedHeader E w b).Set "Content-Encoding" "gzip" } b := by
  have hg := sniffedHeader_Get E w b
  unfold gzipResponseWriter.Write
  unfold sniffedHeader at hg ⊢
  by_cases hct : w.header.Get "Content-Type" = ""
  · simp only [if_pos hct] at hg ⊢
    simp only [hg, h]
  · simp only [if_neg hct] at hg ⊢
    simp only [hg, h]

theorem sniffWrite_direct (E : Env σ) (w : World σ) (b : Bytes)
    (h : compressibleMimes.index (baseContentType (effectiveContentType E w b)) = false) :
    gzipResponseWriter.Write E w b =
      ResponseWriter.Write { w with header := sniffedHeader E w b } b := by
  have hg := sniffedHeader_Get E w b
  unfold gzipResponseWriter.Write
  unfold sniffedHeader at hg ⊢
  by_cases hct : w.header.Get "Content-Type" = ""
  · simp only [if_pos hct] at hg ⊢
    simp only [hg, h]
  · simp only [if_neg hct] at hg ⊢
    simp only [hg, h]

theorem lookup_getD_true_iff (l : List (String × Bool)) (hall : ∀ e ∈ l, e.2 = true)
    (t : String) : (l.lookup t).getD false = true ↔ t ∈ l.map Prod.fst := by
  induction l with
  | nil => simp
  | cons e l ih =>
    obtain ⟨a, v⟩ := e
    have hv : v = true := hall (a, v) (List.mem_cons_self _ _)
    have ih1 := ih (fun e he => hall e (List.mem_cons_of_mem _ he))
    subst hv
    by_cases hta : t = a
    · subst hta
      simp [List.lookup_cons]
    · have h1 : (t == a) = false := by simpa using hta
      simp only [List.lookup_cons, h1, ih1, List.map_cons, List.mem_cons, hta, false_or]

theorem compressibleMimes.index_iff (t : String) :
    compressibleMimes.index t = true ↔ t ∈ allowList :=
  lookup_getD_true_iff compressibleMimes (by decide) t

theorem Header.lookup_put_ne (h : Header) (key k : String) (vs : List String) (hk : k ≠ key) :
    (h.put key vs).entries.lookup k = h.entries.lookup k := by
  unfold Header.put
  have h1 : (k == key) = false := by simpa using hk
  simp only [List.lookup_cons, h1, lookup_filter_ne _ _ _ hk]

theorem sniffedHeader_lookup_ne (E : Env σ) (w : World σ) (b : Bytes) (k : String)
    (hk : k ≠ "Content-Type") :
    (sniffedHeader E w b).entries.lookup k = w.header.entries.lookup k := by
  unfold sniffedHeader
  split
  · exact Header.lookup_put_ne _ _ _ _ hk
  · rfl

theorem sniffWrite_header (E : Env σ) (w : World σ) (b : Bytes) :
    (gzipResponseWriter.Write E w b).1.header =
      if compressibleMimes.index (baseContentType (effectiveContentType E w b)) = true then
        (sniffedHeader E w b).Set "Content-Encoding" "gzip"
      else sniffedHeader E w b := by
  by_cases h : compressibleMimes.index (baseContentType (effectiveContentType E w b)) = true
  · rw [if_pos h, sniffWrite_compressible E w b h, gzWrite_header]
  · rw [if_neg h]
    rw [Bool.not_eq_true] at h
    rw [sniffWrite_direct E w b h, rwWrite_header]

theorem sniffWrite_trace (E : Env σ) (w : World σ) (b : Bytes) :
    (gzipResponseWriter.Write E w b).1.trace =
      if compressibleMimes.index (baseContentType (effectiveContentType E w b)) = true then
        w.trace ++ [Event.gzWrite ((sniffedHeader E w b).Set "Content-Encoding" "gzip") b]
      else w.trace ++ [Event.rwWrite (sniffedHeader E w b) b] := by
  by_cases h : compressibleMimes.index (baseContentType (effectiveContentType E w b)) = true
  · rw [if_pos h, sniffWrite_compressible E w b h, gzWrite_trace]
  · rw [if_neg h]
    rw [Bool.not_eq_true] at h
    rw [sniffWrite_direct E w b h, rwWrite_trace]

/-! ## Routing of a single `Write` (C8, C9, C10) -/

/-- C8: a `Write` call hands its chunk to the gzip writer exactly when the
trimmed base content type is one of the 21 allow-list strings, compared
character for character; otherwise (for instance for the empty string,
`Text/HTML` or `text/htmlx`) the chunk goes to the real response writer and
the gzip writer is not touched. -/
theorem C8_routes_to_gzip_iff_exact_allow_list_match (E : Env σ) (w : World σ) (b : Bytes) :
    ((∃ hdr, (gzipResponseWriter.Write E w b).1.trace = w.trace ++ [Event.gzWrite hdr b]) ↔
        baseContentType (effectiveContentType E w b) ∈ allowList) ∧
      ((∃ hdr, (gzipResponseWriter.Write E w b).1.trace = w.trace ++ [Event.rwWrite hdr b]) ↔
        baseContentType (effectiveContentType E w b) ∉ allowList) ∧
      (baseContentType (effectiveContentType E w b) ∉ allowList →
        (gzipResponseWriter.Write E w b).1.gz = w.gz) ∧
      allowList.length = 21 ∧ allowList.Nodup ∧
      "" ∉ allowList ∧ "Text/HTML" ∉ allowList ∧ "text/htmlx" ∉ allowList := by
  have htr := sniffWrite_trace E w b
  have hiff := compressibleMimes.index_iff (baseContentType (effectiveContentType E w b))
  refine ⟨?_, ?_, ?_, by decide, by decide, by decide, by decide, by decide⟩
  · constructor
    · rintro ⟨hdr, he⟩
      by_contra hn
      rw [← hiff] at hn
      rw [if_neg hn, he] at htr
      simp at htr
    · intro hm
      rw [if_pos (hiff.mpr hm)] at htr
      exact ⟨_, htr⟩
  · constructor
    · rintro ⟨hdr, he⟩ hm
      rw [if_pos (hiff.mpr hm), he] at htr
      simp at htr
    · intro hn
      rw [← hiff] at hn
      rw [if_neg hn] at htr
      exact ⟨_, htr⟩
  · intro hn
    rw [← hiff, Bool.not_eq_true] at hn
    rw [sniffWrite_direct E w b hn, rwWrite_gz]

/-- C9: when `Write` routes the chunk to the gzip writer, `Content-Encoding`
is `gzip` in the header map at the moment the gzip writer is called (and
afterwards); when it routes the chunk to the real response writer, the
`Content-Encoding` entry of the header map is what it was before the call. -/
theorem C9_content_encoding_set_exactly_on_gzip_path (E : Env σ) (w : World σ) (b : Bytes) :
    (baseContentType (effectiveContentType E w b) ∈ allowList ∧
        ∃ hdr, (gzipResponseWriter.Write E w b).1.trace = w.trace ++ [Event.gzWrite hdr b] ∧
          hdr.values "Content-Encoding" = ["gzip"] ∧ hdr.Get "Content-Encoding" = "gzip" ∧
          (gzipResponseWriter.Write E w b).1.header = hdr) ∨
      (baseContentType (effectiveContentType E w b) ∉ allowList ∧
        (∃ hdr, (gzipResponseWriter.Write E w b).1.trace = w.trace ++ [Event.rwWrite hdr b]) ∧
          (gzipResponseWriter.Write E w b).1.header.entries.lookup "Content-Encoding" =
            w.header.entries.lookup "Content-Encoding") := by
  have htr := sniffWrite_trace E w b
  have hhd := sniffWrite_header E w b
  have hiff := compressibleMimes.index_iff (baseContentType (effectiveContentType E w b))
  by_cases h : compressibleMimes.index (baseContentType (effectiveContentType E w b)) = true
  · left
    rw [if_pos h] at htr hhd
    refine ⟨hiff.mp h, _, htr, ?_, ?_, hhd⟩
    · rw [Header.values_Set, if_pos rfl]
    · rw [Header.Get_Set, if_pos rfl]
  · right
    rw [if_neg h] at htr hhd
    refine ⟨fun hm => h (hiff.mpr hm), ⟨_, htr⟩, ?_⟩
    rw [hhd]
    exact sniffedHeader_lookup_ne E w b _ (by decide)

/-- C10: a `Write` call that finds a non-empty `Content-Type` leaves the
`Content-Type` entry as it is and behaves the same whatever the detection
function is; a `Write` call that finds `Content-Type` absent or empty leaves
it set to the type detected from the bytes of this chunk. -/
theorem C10_sniffing_gated_by_header_presence (E : Env σ) (w : World σ) (b : Bytes) :
    (w.header.Get "Content-Type" ≠ "" →
        (gzipResponseWriter.Write E w b).1.header.entries.lookup "Content-Type" =
            w.header.entries.lookup "Content-Type" ∧
          ∀ detect : Bytes → String,
            gzipResponseWriter.Write ⟨detect, E.codec⟩ w b = gzipResponseWriter.Write E w b) ∧
      (w.header.Get "Content-Type" = "" →
        (gzipResponseWriter.Write E w b).1.header.values "Content-Type" = [E.detect b] ∧
          (gzipResponseWriter.Write E w b).1.header.Get "Content-Type" = E.detect b) := by
  have hhd := sniffWrite_header E w b
  constructor
  · intro hne
    constructor
    · rw [hhd]
      have hs : sniffedHeader E w b = w.header := by
        unfold sniffedHeader
        rw [if_neg hne]
      rw [hs]
      split
      · exact Header.lookup_put_ne _ _ _ _ (by decide)
      · rfl
    · intro detect
      unfold gzipResponseWriter.Write
      simp only [if_neg hne]
  · intro he
    have hs : sniffedHeader E w b = w.header.Set "Content-Type" (E.detect b) := by
      unfold sniffedHeader
      rw [if_pos he]
    rw [hhd, hs]
    split
    · constructor
      · rw [Header.values_Set, if_neg (by decide), Header.values_Set, if_pos rfl]
      · rw [Header.Get_Set, if_neg (by decide), Header.Get_Set, if_pos rfl]
    · constructor
      · rw [Header.values_Set, if_pos rfl]
      · rw [Header.Get_Set, if_pos rfl]

/-! ## The stored-block gzip writer round-trips -/

theorem toNat_ofNat_mod (n : Nat) : (UInt8.ofNat (n % 256)).toNat = n % 256 :=
  UInt8.toNat_ofNat_of_lt (Nat.mod_lt _ (by decide))

theorem leValue_le16 (n : Nat) (h : n < 65536) : leValue (le16 n) = n := by
  simp only [le16, leValue, toNat_ofNat_mod]
  omega

theorem inflateStored_final (fuel : Nat) (tail : Bytes) :
    inflateStored (fuel + 1) (finalStoredBlock ++ tail) = some ([], tail) := by
  simp [inflateStored, finalStoredBlock, leValue]

theorem storedBlocks_nil (k : Nat) : storedBlocks k [] = [] := by
  cases k <;> simp [storedBlocks]

theorem inflateStored_storedBlocks (tail : Bytes) :
    ∀ (k : Nat) (data : Bytes) (fuel : Nat), data.length ≤ k → data.length < fuel →
      inflateStored fuel (storedBlocks k data ++ finalStoredBlock ++ tail) = some (data, tail) := by
  intro k
  induction k with
  | zero =>
    intro data fuel hk hf
    have hd : data = [] := List.length_eq_zero.mp (Nat.le_zero.mp hk)
    subst hd
    obtain ⟨f, rfl⟩ : ∃ f, fuel = f + 1 := ⟨fuel - 1, by omega⟩
    simpa [storedBlocks] using inflateStored_final f tail
  | succ k ih =>
    intro data fuel hk hf
    obtain ⟨f, rfl⟩ : ∃ f, fuel = f + 1 := ⟨fuel - 1, by omega⟩
    by_cases hd : data = []
    · subst hd
      simpa [storedBlocks] using inflateStored_final f tail
    · have hpos : 0 < data.length := List.length_pos.mpr hd
      have hlen : (data.take 65535).length < 65536 := by
        rw [List.length_take]
        omega
      have hx : (data.take 65535).length ^^^ 0xFFFF < 65536 :=
        Nat.xor_lt_two_pow (n := 16) hlen (by decide)
      have hrec := ih (data.drop 65535) f (by rw [List.length_drop]; omega)
        (by rw [List.length_drop]; omega)
      have h1 := leValue_le16 _ hlen
      have h2 := leValue_le16 _ hx
      simp only [le16] at h1 h2
      simp only [storedBlocks, if_neg hd, le16, List.singleton_append, List.cons_append,
        List.nil_append, List.append_assoc, inflateStored, h1, h2]
      have hz : (0 : UInt8).toNat = 0 := rfl
      simp only [hz, Nat.zero_div, Nat.zero_mod, ne_eq, not_true_eq_false, false_or,
        List.length_append, List.take_left', List.drop_left']
      rw [if_neg (by omega), if_neg (by decide)]
      rw [List.append_assoc] at hrec
      simp only [List.take_left', List.drop_left', hrec, List.take_append_drop]

theorem length_le_storedBlocks :
    ∀ (k : Nat) (data : Bytes), data.length ≤ k → data.length ≤ (storedBlocks k data).length := by
  intro k
  induction k with
  | zero =>
    intro data hk
    omega
  | succ k ih =>
    intro data hk
    by_cases hd : data = []
    · subst hd
      simp
    · have hpos : 0 < data.length := List.length_pos.mpr hd
      have hrec := ih (data.drop 65535) (by rw [List.length_drop]; omega)
      rw [List.length_drop] at hrec
      simp only [storedBlocks, if_neg hd, le16, List.length_append, List.length_cons,
        List.length_nil, List.length_take]
      omega

theorem gunzipStored_member (data : Bytes) :
    gunzipStored (gzipHeader ++ storedBlocks (data.length + 1) data ++ finalStoredBlock ++
      gzipFooter data) = some data := by
  have hb := length_le_storedBlocks (data.length + 1) data (Nat.le_succ _)
  have hinf := inflateStored_storedBlocks (gzipFooter data) (data.length + 1) data
    ((gzipHeader ++ storedBlocks (data.length + 1) data ++ finalStoredBlock ++
      gzipFooter data).length) (Nat.le_succ _)
    (by
      have hh : gzipHeader.length = 10 := rfl
      simp only [List.length_append, hh]
      omega)
  have ht : (gzipHeader ++ storedBlocks (data.length + 1) data ++ finalStoredBlock ++
      gzipFooter data).take 10 = gzipHeader := by
    rw [List.append_assoc, List.append_assoc]
    exact List.take_left' rfl
  have hdrop : (gzipHeader ++ storedBlocks (data.length + 1) data ++ finalStoredBlock ++
      gzipFooter data).drop 10 =
      storedBlocks (data.length + 1) data ++ finalStoredBlock ++ gzipFooter data := by
    rw [List.append_assoc, List.append_assoc, List.append_assoc]
    exact List.drop_left' rfl
  unfold gunzipStored
  rw [if_pos ht, hdrop, hinf]
  simp

theorem storedGzip_stream (chunks : List Bytes) :
    ∀ s : StoredState, storedGzip.stream s chunks =
      (if s.wroteHeader then [] else gzipHeader) ++
        storedBlocks ((s.pending ++ chunks.flatten).length + 1) (s.pending ++ chunks.flatten) ++
        finalStoredBlock ++ gzipFooter (s.pending ++ chunks.flatten) := by
  induction chunks with
  | nil =>
    intro s
    simp [Codec.stream, storedGzip]
  | cons c cs ih =>
    intro s
    rw [Codec.stream, ih]
    simp [storedGzip, List.append_assoc]

/-- The stored-block writer and its decompressor round-trip on every sequence
of chunks, and the decompressor rejects the empty input. -/
theorem storedGzip_round_trip (chunks : List Bytes) :
    storedGzip.decode (storedGzip.stream storedGzip.init chunks) = some chunks.flatten ∧
      storedGzip.decode [] = none := by
  constructor
  · rw [storedGzip_stream]
    exact gunzipStored_member chunks.flatten
  · decide

/-- The output of the stored-block writer depends only on the concatenation
of the chunks. -/
theorem storedGzip_stream_flatten (chunks : List Bytes) :
    storedGzip.stream storedGzip.init chunks =
      gzipHeader ++ storedBlocks (chunks.flatten.length + 1) chunks.flatten ++
        finalStoredBlock ++ gzipFooter chunks.flatten := by
  rw [storedGzip_stream]
  rfl

/-! ## Facts about runs of a handler -/

theorem Header.Set_Set (h : Header) (key v v' : String) :
    (h.Set key v).Set key v' = h.Set key v' := by
  unfold Header.Set Header.put
  simp [List.filter_cons, List.filter_filter]

theorem gzWrite_healthy (cd : Codec σ) (w : World σ) (p : Bytes)
    (hr : w.room = none) (he : w.gz.err = none) :
    gzip.Writer.Write cd w p =
      ({ w with
          body := w.body ++ (cd.write w.gz.st p).2
          gz := { st := (cd.write w.gz.st p).1, err := none, closed := w.gz.closed }
          trace := w.trace ++ [Event.gzWrite w.header p] }, ⟨p.length, none⟩) := by
  obtain ⟨hd, bd, rm, gz, tr⟩ := w
  simp only at hr he
  subst hr
  simp [gzip.Writer.Write, World.log, World.accept, he]

theorem gzClose_healthy (cd : Codec σ) (w : World σ)
    (hr : w.room = none) (he : w.gz.err = none) (hc : w.gz.closed = false) :
    gzip.Writer.Close cd w =
      { w with
        body := w.body ++ cd.close w.gz.st
        gz := { st := w.gz.st, err := none, closed := true }
        trace := w.trace ++ [Event.gzClose] } := by
  obtain ⟨hd, bd, rm, gz, tr⟩ := w
  simp only at hr he hc
  subst hr
  simp [gzip.Writer.Close, World.log, World.accept, he, hc]

theorem rwWrite_unlimited (w : World σ) (b : Bytes) (hr : w.room = none) :
    ResponseWriter.Write w b =
      ({ w with body := w.body ++ b, trace := w.trace ++ [Event.rwWrite w.header b] },
        ⟨b.length, none⟩) := by
  obtain ⟨hd, bd, rm, gz, tr⟩ := w
  simp only at hr
  subst hr
  simp [ResponseWriter.Write, World.log, World.accept]

theorem effectiveContentType_declared (E : Env σ) (w : World σ) (b : Bytes)
    (h : w.header.Get "Content-Type" ≠ "") :
    effectiveContentType E w b = w.header.Get "Content-Type" ∧ sniffedHeader E w b = w.header := by
  unfold effectiveContentType sniffedHeader
  rw [if_neg h, if_neg h]
  exact ⟨rfl, rfl⟩

/-- Run of a chunk-writing handler on the compression path: every chunk goes
to the gzip writer, and after `Close` the real writer holds the whole stream. -/
theorem writeChunks_compressed (E : Env σ) (ct : String) (hne : ct ≠ "")
    (hct : compressibleMimes.index (baseContentType ct) = true) (chunks : List Bytes) :
    ∀ w : World σ, w.header.Get "Content-Type" = ct → w.room = none → w.gz.err = none →
      w.gz.closed = false →
      ((writeChunks chunks).run (gzipResponseWriter.Write E) w).2 = Outcome.returned ∧
      (gzip.Writer.Close E.codec ((writeChunks chunks).run (gzipResponseWriter.Write E) w).1).body =
        w.body ++ E.codec.stream w.gz.st chunks ∧
      ((writeChunks chunks).run (gzipResponseWriter.Write E) w).1.trace =
        w.trace ++ chunks.map (Event.gzWrite (w.header.Set "Content-Encoding" "gzip")) ∧
      ((writeChunks chunks).run (gzipResponseWriter.Write E) w).1.header =
        (if chunks = [] then w.header else w.header.Set "Content-Encoding" "gzip") := by
  induction chunks with
  | nil =>
    intro w _ hr he hc
    have hC := gzClose_healthy E.codec w hr he hc
    simp [writeChunks, Prog.run, hC, Codec.stream]
  | cons c cs ih =>
    intro w hw hr he hc
    have hdecl := effectiveContentType_declared E w c (by rw [hw]; exact hne)
    have hcomp : compressibleMimes.index (baseContentType (effectiveContentType E w c)) = true := by
      rw [hdecl.1, hw]
      exact hct
    have hW := sniffWrite_compressible E w c hcomp
    have hG := gzWrite_healthy E.codec
      { w with header := w.header.Set "Content-Encoding" "gzip" } c hr he
    rw [hdecl.2, hG] at hW
    simp only [writeChunks, Prog.run, hW]
    have hget : (w.header.Set "Content-Encoding" "gzip").Get "Content-Type" = ct := by
      rw [Header.Get_Set, if_neg (by decide), hw]
    obtain ⟨h1, h2, h3, h4⟩ := ih
      { w with
        header := w.header.Set "Content-Encoding" "gzip"
        body := w.body ++ (E.codec.write w.gz.st c).2
        gz := { st := (E.codec.write w.gz.st c).1, err := none, closed := w.gz.closed }
        trace := w.trace ++ [Event.gzWrite (w.header.Set "Content-Encoding" "gzip") c] }
      hget hr rfl hc
    refine ⟨h1, ?_, ?_, ?_⟩
    · rw [h2]
      simp [Codec.stream, List.append_assoc]
    · rw [h3]
      simp [Header.Set_Set]
    · rw [h4]
      simp only [Header.Set_Set, reduceCtorEq, if_false]
      split <;> rfl

/-- Run of a chunk-writing handler on the direct path of `Write`: every chunk
goes to the real writer as it is, and the gzip writer stays untouched. -/
theorem writeChunks_direct (E : Env σ) (ct : String) (hne : ct ≠ "")
    (hct : compressibleMimes.index (baseContentType ct) = false) (chunks : List Bytes) :
    ∀ w : World σ, w.header.Get "Content-Type" = ct → w.room = none →
      ((writeChunks chunks).run (gzipResponseWriter.Write E) w) =
        ({ w with
            body := w.body ++ chunks.flatten
            trace := w.trace ++ chunks.map (Event.rwWrite w.header) }, Outcome.returned) := by
  induction chunks with
  | nil =>
    intro w _ _
    simp [writeChunks, Prog.run]
  | cons c cs ih =>
    intro w hw hr
    have hdecl := effectiveContentType_declared E w c (by rw [hw]; exact hne)
    have hcomp : compressibleMimes.index (baseContentType (effectiveContentType E w c)) = false := by
      rw [hdecl.1, hw]
      exact hct
    have hW := sniffWrite_direct E w c hcomp
    rw [hdecl.2] at hW
    have hself : ({ w with header := w.header } : World σ) = w := rfl
    rw [hself, rwWrite_unlimited _ _ hr] at hW
    simp only [writeChunks, Prog.run, hW]
    rw [ih { w with body := w.body ++ c, trace := w.trace ++ [Event.rwWrite w.header c] } hw hr]
    simp [List.append_assoc]

theorem Prog.run_trace_extends (wr : World σ → Bytes → World σ × WriteResult)
    (hwr : ∀ w b, ∃ es, (wr w b).1.trace = w.trace ++ es) (p : Prog) :
    ∀ w : World σ, ∃ es, (p.run wr w).1.trace = w.trace ++ es := by
  induction p with
  | ret => exact fun w => ⟨[], by simp [Prog.run]⟩
  | panic => exact fun w => ⟨[], by simp [Prog.run]⟩
  | setHeader key value next ih => exact fun w => ih _
  | addHeader key value next ih => exact fun w => ih _
  | delHeader key next ih => exact fun w => ih _
  | getHeader next ih => exact fun w => ih _ w
  | write b next ih =>
    intro w
    obtain ⟨es1, h1⟩ := hwr w b
    obtain ⟨es2, h2⟩ := ih (wr w b).2 (wr w b).1
    refine ⟨es1 ++ es2, ?_⟩
    simp only [Prog.run]
    rw [h2, h1, List.append_assoc]

theorem sniffWrite_trace_extends (E : Env σ) (w : World σ) (b : Bytes) :
    ∃ es, (gzipResponseWriter.Write E w b).1.trace = w.trace ++ es := by
  rw [sniffWrite_trace]
  split
  · exact ⟨_, rfl⟩
  · exact ⟨_, rfl⟩

theorem gzClose_trace (cd : Codec σ) (w : World σ) :
    (gzip.Writer.Close cd w).trace = w.trace ++ [Event.gzClose] := by
  unfold gzip.Writer.Close
  simp only
  split
  · rfl
  · split
    · rfl
    · simp only [World.accept_trace]
      rfl

theorem gzClose_header (cd : Codec σ) (w : World σ) :
    (gzip.Writer.Close cd w).header = w.header := by
  unfold gzip.Writer.Close
  simp only
  split
  · rfl
  · split
    · rfl
    · simp only [World.accept_header]
      rfl

/-- The compression branch of `GzipHandler`, spelled out. -/
theorem GzipHandler_supported (E : Env σ) (h : Handler) (w : World σ) (r : Request)
    (hacc : strings.Contains (r.header.Get "Accept-Encoding") "gzip" = true) :
    GzipHandler E h w r =
      (gzip.Writer.Close E.codec
          ((h r).run (gzipResponseWriter.Write E)
            { header := w.header.Add "Vary" "Accept-Encoding"
              body := w.body
              room := w.room
              gz := { st := E.codec.init, err := none, closed := false }
              trace := w.trace ++ [Event.newWriter,
                Event.serveHTTP true (w.header.Add "Vary" "Accept-Encoding")] }).1,
        ((h r).run (gzipResponseWriter.Write E)
            { header := w.header.Add "Vary" "Accept-Encoding"
              body := w.body
              room := w.room
              gz := { st := E.codec.init, err := none, closed := false }
              trace := w.trace ++ [Event.newWriter,
                Event.serveHTTP true (w.header.Add "Vary" "Accept-Encoding")] }).2) := by
  simp [GzipHandler, hacc, Handler.ServeHTTP, gzip.NewWriter, World.log]

/-- The pass-through branch of `GzipHandler`, spelled out. -/
theorem GzipHandler_unsupported (E : Env σ) (h : Handler) (w : World σ) (r : Request)
    (hacc : strings.Contains (r.header.Get "Accept-Encoding") "gzip" = false) :
    GzipHandler E h w r =
      (h r).run ResponseWriter.Write
        { header := w.header.Add "Vary" "Accept-Encoding"
          body := w.body
          room := w.room
          gz := w.gz
          trace := w.trace ++ [Event.serveHTTP false (w.header.Add "Vary" "Accept-Encoding")] } := by
  simp [GzipHandler, hacc, Handler.ServeHTTP, World.log]

theorem GzipHandler_trace (E : Env σ) (h : Handler) (w : World σ) (r : Request) :
    ∃ es, (GzipHandler E h w r).1.trace =
      w.trace ++
        (if strings.Contains (r.header.Get "Accept-Encoding") "gzip" = true then
          Event.newWriter :: Event.serveHTTP true (w.header.Add "Vary" "Accept-Encoding") ::
            (es ++ [Event.gzClose])
        else Event.serveHTTP false (w.header.Add "Vary" "Accept-Encoding") :: es) := by
  by_cases hacc : strings.Contains (r.header.Get "Accept-Encoding") "gzip" = true
  · rw [GzipHandler_supported E h w r hacc]
    simp only [hacc, if_true]
    obtain ⟨es, he⟩ := Prog.run_trace_extends (gzipResponseWriter.Write E)
      (sniffWrite_trace_extends E) (h r)
      { header := w.header.Add "Vary" "Accept-Encoding"
        body := w.body
        room := w.room
        gz := { st := E.codec.init, err := none, closed := false }
        trace := w.trace ++ [Event.newWriter,
          Event.serveHTTP true (w.header.Add "Vary" "Accept-Encoding")] }
    refine ⟨es, ?_⟩
    rw [gzClose_trace, he]
    simp
  · rw [Bool.not_eq_true] at hacc
    rw [GzipHandler_unsupported E h w r hacc]
    simp only [hacc, Bool.false_eq_true, if_false]
    obtain ⟨es, he⟩ := Prog.run_trace_extends ResponseWriter.Write
      (fun w b => ⟨_, rwWrite_trace w b⟩) (h r)
      { header := w.header.Add "Vary" "Accept-Encoding"
        body := w.body
        room := w.room
        gz := w.gz
        trace := w.trace ++ [Event.serveHTTP false (w.header.Add "Vary" "Accept-Encoding")] }
    refine ⟨es, ?_⟩
    rw [he]
    simp

theorem allowList_base_self : ∀ t ∈ allowList, baseContentType t = t ∧ t ≠ "" := by
  decide

/-- Response of the compression branch to a handler that declares a content
type outside the allow-list and writes chunks: the chunks reach the real
writer unchanged, and the deferred `Close` appends what the gzip writer emits
for an empty stream. -/
theorem GzipHandler_declared_direct (E : Env σ) (h : Handler) (w : World σ) (r : Request)
    (ct : String) (chunks : List Bytes)
    (hacc : strings.Contains (r.header.Get "Accept-Encoding") "gzip" = true)
    (hne : ct ≠ "") (hct : compressibleMimes.index (baseContentType ct) = false)
    (hh : h r = declareAndWrite ct chunks) (hroom : w.room = none) :
    (GzipHandler E h w r).1.body = w.body ++ chunks.flatten ++ E.codec.close E.codec.init ∧
      (GzipHandler E h w r).1.header =
        (w.header.Add "Vary" "Accept-Encoding").Set "Content-Type" ct := by
  rw [GzipHandler_supported E h w r hacc, hh]
  simp only [declareAndWrite, Prog.run]
  rw [writeChunks_direct E ct hne hct chunks
    { header := (w.header.Add "Vary" "Accept-Encoding").Set "Content-Type" ct
      body := w.body
      room := w.room
      gz := { st := E.codec.init, err := none, closed := false }
      trace := w.trace ++ [Event.newWriter,
        Event.serveHTTP true (w.header.Add "Vary" "Accept-Encoding")] }
    (by rw [Header.Get_Set, if_pos rfl]) hroom]
  simp only
  rw [gzClose_healthy E.codec
    { header := (w.header.Add "Vary" "Accept-Encoding").Set "Content-Type" ct
      body := w.body ++ chunks.flatten
      room := w.room
      gz := { st := E.codec.init, err := none, closed := false }
      trace := w.trace ++ [Event.newWriter,
        Event.serveHTTP true (w.header.Add "Vary" "Accept-Encoding")] ++
          chunks.map (Event.rwWrite ((w.header.Add "Vary" "Accept-Encoding").Set "Content-Type" ct)) }
    hroom rfl rfl]
  exact ⟨rfl, rfl⟩

/-- A gzip writer whose stream for the empty input is accepted by a
decompressor that rejects the empty byte string emits at least one byte when
it is closed without having been written to. -/
theorem Codec.close_init_ne_nil (cd : Codec σ) (hempty : cd.decode [] = none)
    (hrt : cd.decode (cd.stream cd.init []) = some []) : cd.close cd.init ≠ [] := by
  intro h
  simp only [Codec.stream, h, hempty] at hrt
  exact Option.noConfusion hrt

/-! ## The handler as a whole (C1 to C6) -/

/-- C1 (the source departs from the claim): with `Accept-Encoding: gzip`, a
handler that declares `image/png` and writes the chunks `PNG` and `data`
leaves `Content-Encoding` unset, but the body received by the real writer is
the seven bytes written followed by the 23 bytes that the deferred `Close` of
the unused gzip writer emits. -/
theorem C1_passthrough_body_gets_gzip_trailer :
    (GzipHandler liteEnv (fun _ => declareAndWrite "image/png" [asciiBytes "PNG", asciiBytes "data"])
        freshWorld (requestAccepting "gzip")).1.body =
        asciiBytes "PNGdata" ++ gzipHeader ++ finalStoredBlock ++ [0, 0, 0, 0, 0, 0, 0, 0] ∧
      (GzipHandler liteEnv (fun _ => declareAndWrite "image/png" [asciiBytes "PNG", asciiBytes "data"])
        freshWorld (requestAccepting "gzip")).1.body ≠ asciiBytes "PNGdata" ∧
      (GzipHandler liteEnv (fun _ => declareAndWrite "image/png" [asciiBytes "PNG", asciiBytes "data"])
        freshWorld (requestAccepting "gzip")).1.header.has "Content-Encoding" = false := by
  decide

/-- C2: for a request that accepts gzip and a handler that declares an
allow-list content type and then writes one or more chunks, the response has
`Content-Encoding: gzip`, every chunk goes to the gzip writer and none to the
real writer directly, and the body the real writer holds after `GzipHandler`
returns is the gzip stream of the chunks, which the matching decompressor
turns back into their concatenation. -/
theorem C2_allow_listed_type_round_trips (E : Env σ) (h : Handler) (w : World σ) (r : Request)
    (ct : String) (chunks : List Bytes)
    (hacc : strings.Contains (r.header.Get "Accept-Encoding") "gzip" = true)
    (hct : ct ∈ allowList) (hh : h r = declareAndWrite ct chunks) (hchunks : chunks ≠ [])
    (hroom : w.room = none) (hbody : w.body = [])
    (hrt : E.codec.decode (E.codec.stream E.codec.init chunks) = some chunks.flatten) :
    (GzipHandler E h w r).1.header.values "Content-Encoding" = ["gzip"] ∧
      (GzipHandler E h w r).1.header.Get "Content-Encoding" = "gzip" ∧
      (GzipHandler E h w r).1.body = E.codec.stream E.codec.init chunks ∧
      E.codec.decode (GzipHandler E h w r).1.body = some chunks.flatten ∧
      (GzipHandler E h w r).1.trace =
        w.trace ++ [Event.newWriter, Event.serveHTTP true (w.header.Add "Vary" "Accept-Encoding")] ++
          chunks.map (Event.gzWrite
            (((w.header.Add "Vary" "Accept-Encoding").Set "Content-Type" ct).Set
              "Content-Encoding" "gzip")) ++ [Event.gzClose] ∧
      (GzipHandler E h w r).2 = Outcome.returned := by
  obtain ⟨hbase, hne⟩ := allowList_base_self ct hct
  have hidx : compressibleMimes.index (baseContentType ct) = true := by
    rw [hbase]
    exact (compressibleMimes.index_iff ct).mpr hct
  rw [GzipHandler_supported E h w r hacc, hh]
  simp only [declareAndWrite, Prog.run]
  obtain ⟨h1, h2, h3, h4⟩ := writeChunks_compressed E ct hne hidx chunks
    { header := (w.header.Add "Vary" "Accept-Encoding").Set "Content-Type" ct
      body := w.body
      room := w.room
      gz := { st := E.codec.init, err := none, closed := false }
      trace := w.trace ++ [Event.newWriter,
        Event.serveHTTP true (w.header.Add "Vary" "Accept-Encoding")] }
    (by rw [Header.Get_Set, if_pos rfl]) hroom rfl rfl
  have hb : (gzip.Writer.Close E.codec
      ((writeChunks chunks).run (gzipResponseWriter.Write E)
        { header := (w.header.Add "Vary" "Accept-Encoding").Set "Content-Type" ct
          body := w.body
          room := w.room
          gz := { st := E.codec.init, err := none, closed := false }
          trace := w.trace ++ [Event.newWriter,
            Event.serveHTTP true (w.header.Add "Vary" "Accept-Encoding")] }).1).body =
      E.codec.stream E.codec.init chunks := by
    rw [h2, hbody]
    rfl
  rw [if_neg hchunks] at h4
  refine ⟨?_, ?_, hb, ?_, ?_, h1⟩
  · rw [gzClose_header, h4, Header.values_Set, if_pos rfl]
  · rw [gzClose_header, h4, Header.Get_Set, if_pos rfl]
  · rw [hb, hrt]
  · rw [gzClose_trace, h3]

/-- C2, at scenario A of the specification: `text/html`, `Accept-Encoding:
gzip`, the body `<html></html>` written in two chunks. -/
theorem C2_allow_listed_type_round_trips_witness :
    (GzipHandler liteEnv (fun _ => declareAndWrite "text/html"
        [asciiBytes "<html>", asciiBytes "</html>"]) freshWorld
        (requestAccepting "gzip")).1.header.Get "Content-Encoding" = "gzip" ∧
      gunzipStored (GzipHandler liteEnv (fun _ => declareAndWrite "text/html"
        [asciiBytes "<html>", asciiBytes "</html>"]) freshWorld
        (requestAccepting "gzip")).1.body = some (asciiBytes "<html></html>") :=
  have key := C2_allow_listed_type_round_trips liteEnv
    (fun _ => declareAndWrite "text/html" [asciiBytes "<html>", asciiBytes "</html>"])
    freshWorld (requestAccepting "gzip") "text/html" [asciiBytes "<html>", asciiBytes "</html>"]
    (by decide) (by decide) rfl (by decide) rfl rfl rfl
  ⟨key.2.1, key.2.2.2.1⟩

/-- C3 (as stated, refuted): for a request with `Accept-Encoding: identity`
and a handler that does nothing, `GzipHandler` leaves `Vary: Accept-Encoding`
in the response headers, while the handler run alone on the same writer leaves
`Vary` absent. -/
theorem C3_counterexample_vary_added_without_gzip :
    strings.Contains ((requestAccepting "identity").header.Get "Accept-Encoding") "gzip" = false ∧
      (GzipHandler liteEnv (fun _ => Prog.ret) freshWorld
        (requestAccepting "identity")).1.header.values "Vary" = ["Accept-Encoding"] ∧
      (Handler.ServeHTTP (fun _ => Prog.ret) false ResponseWriter.Write freshWorld
        (requestAccepting "identity")).1.header.values "Vary" = [] ∧
      (GzipHandler liteEnv (fun _ => Prog.ret) freshWorld (requestAccepting "identity")).1.header ≠
        (Handler.ServeHTTP (fun _ => Prog.ret) false ResponseWriter.Write freshWorld
          (requestAccepting "identity")).1.header := by
  decide

/-- C3 (amended): for a request whose `Accept-Encoding` does not contain
`gzip`, `GzipHandler` appends `Accept-Encoding` to `Vary`, touches no other
header entry, and then does exactly what the wrapped handler does when it is
run alone against the real response writer with that header map. -/
theorem C3_unsupported_request_runs_handler_after_adding_vary (E : Env σ) (h : Handler)
    (w : World σ) (r : Request)
    (hacc : strings.Contains (r.header.Get "Accept-Encoding") "gzip" = false) :
    GzipHandler E h w r =
        h.ServeHTTP false ResponseWriter.Write
          { w with header := w.header.Add "Vary" "Accept-Encoding" } r ∧
      (w.header.Add "Vary" "Accept-Encoding").values "Vary" =
        w.header.values "Vary" ++ ["Accept-Encoding"] ∧
      ∀ k : String, k ≠ "Vary" →
        (w.header.Add "Vary" "Accept-Encoding").entries.lookup k = w.header.entries.lookup k := by
  refine ⟨?_, ?_, ?_⟩
  · simp [GzipHandler, hacc]
  · rw [Header.values_Add, if_pos rfl]
  · intro k hk
    exact Header.lookup_put_ne _ _ _ _ hk

/-- C3 (amended), at a request with `Accept-Encoding: identity` and a handler
that declares `image/png` and writes one chunk. -/
theorem C3_unsupported_request_runs_handler_after_adding_vary_witness :
    GzipHandler liteEnv (fun _ => declareAndWrite "image/png" [asciiBytes "PNG"]) freshWorld
        (requestAccepting "identity") =
      Handler.ServeHTTP (fun _ => declareAndWrite "image/png" [asciiBytes "PNG"]) false
        ResponseWriter.Write
        { freshWorld with header := freshWorld.header.Add "Vary" "Accept-Encoding" }
        (requestAccepting "identity") :=
  (C3_unsupported_request_runs_handler_after_adding_vary liteEnv
    (fun _ => declareAndWrite "image/png" [asciiBytes "PNG"]) freshWorld
    (requestAccepting "identity") (by decide)).1

/-- C4 (the source departs from the claim): with `Accept-Encoding: gzip`, a
handler that sets no `Content-Type` and never writes leaves `Content-Type` and
`Content-Encoding` absent, but the real writer has received the 23 bytes that
the deferred `Close` of the unused gzip writer emits. -/
theorem C4_silent_handler_body_is_not_empty :
    (GzipHandler liteEnv (fun _ => Prog.ret) freshWorld (requestAccepting "gzip")).1.body =
        gzipHeader ++ finalStoredBlock ++ [0, 0, 0, 0, 0, 0, 0, 0] ∧
      (GzipHandler liteEnv (fun _ => Prog.ret) freshWorld (requestAccepting "gzip")).1.body.length = 23 ∧
      (GzipHandler liteEnv (fun _ => Prog.ret) freshWorld
        (requestAccepting "gzip")).1.header.has "Content-Type" = false ∧
      (GzipHandler liteEnv (fun _ => Prog.ret) freshWorld
        (requestAccepting "gzip")).1.header.has "Content-Encoding" = false ∧
      (GzipHandler liteEnv (fun _ => Prog.ret) freshWorld (requestAccepting "identity")).1.body = [] := by
  decide

/-- C5 (as stated, refuted): `GZIP` and `Gzip` contain the token when letter
case is ignored, yet for both values `GzipHandler` takes the pass-through
branch; only the lower-case `gzip` selects the compression branch. -/
theorem C5_counterexample_upper_case_gzip :
    specAcceptsGzip "GZIP" = true ∧ specAcceptsGzip "Gzip" = true ∧
      (GzipHandler liteEnv (fun _ => Prog.ret) freshWorld (requestAccepting "GZIP")).1.trace =
        [Event.serveHTTP false (Header.empty.Add "Vary" "Accept-Encoding")] ∧
      (GzipHandler liteEnv (fun _ => Prog.ret) freshWorld (requestAccepting "Gzip")).1.trace =
        [Event.serveHTTP false (Header.empty.Add "Vary" "Accept-Encoding")] ∧
      (GzipHandler liteEnv (fun _ => Prog.ret) freshWorld (requestAccepting "gzip")).1.trace =
        [Event.newWriter, Event.serveHTTP true (Header.empty.Add "Vary" "Accept-Encoding"),
          Event.gzClose] := by
  decide

/-- C5 (amended): the support check is case-sensitive.  `GzipHandler` takes the
compression branch (creates a gzip writer and hands the handler the sniffing
writer) if and only if the first `Accept-Encoding` value of the request
contains the lower-case character sequence `gzip`, and the pass-through branch
(the handler gets the real writer) if and only if it does not. -/
theorem C5_compression_branch_iff_exact_case_substring (E : Env σ) (h : Handler)
    (w : World σ) (r : Request) :
    ((∃ hdr rest, (GzipHandler E h w r).1.trace =
          w.trace ++ Event.newWriter :: Event.serveHTTP true hdr :: rest) ↔
        "gzip".toList <:+: (r.header.Get "Accept-Encoding").toList) ∧
      ((∃ hdr rest, (GzipHandler E h w r).1.trace =
          w.trace ++ Event.serveHTTP false hdr :: rest) ↔
        ¬ "gzip".toList <:+: (r.header.Get "Accept-Encoding").toList) := by
  obtain ⟨es, hes⟩ := GzipHandler_trace E h w r
  rw [← strings.Contains_iff]
  by_cases hacc : strings.Contains (r.header.Get "Accept-Encoding") "gzip" = true
  · rw [if_pos hacc] at hes
    constructor
    · exact ⟨fun _ => hacc, fun _ => ⟨_, _, hes⟩⟩
    · constructor
      · rintro ⟨hdr, rest, he⟩
        rw [he] at hes
        simp at hes
      · intro hn
        exact absurd hacc hn
  · rw [if_neg hacc] at hes
    constructor
    · constructor
      · rintro ⟨hdr, rest, he⟩
        rw [he] at hes
        simp at hes
      · intro hp
        exact absurd hp hacc
    · exact ⟨fun _ => hacc, fun _ => ⟨_, _, hes⟩⟩

/-- C6: for a request whose `Accept-Encoding` contains `gzip`, the wrapped
handler starts in a state whose `Vary` values are the previous ones followed
by `Accept-Encoding` and whose body is still the one `GzipHandler` was called
with; the only call before the handler's invocation is `gzip.NewWriter`.  This
holds for every handler, whatever path its writes take. -/
theorem C6_vary_added_before_handler_runs (E : Env σ) (h : Handler) (w : World σ) (r : Request)
    (hacc : strings.Contains (r.header.Get "Accept-Encoding") "gzip" = true) :
    ∃ w1 : World σ, ∃ rest : List Event,
      w1.header.values "Vary" = w.header.values "Vary" ++ ["Accept-Encoding"] ∧
        w1.body = w.body ∧
        GzipHandler E h w r =
          (gzip.Writer.Close E.codec ((h r).run (gzipResponseWriter.Write E) w1).1,
            ((h r).run (gzipResponseWriter.Write E) w1).2) ∧
        (GzipHandler E h w r).1.trace =
          w.trace ++ Event.newWriter :: Event.serveHTTP true w1.header :: rest := by
  obtain ⟨es, hes⟩ := GzipHandler_trace E h w r
  rw [if_pos hacc] at hes
  refine ⟨_, _, ?_, ?_, GzipHandler_supported E h w r hacc, hes⟩
  · simp only
    rw [Header.values_Add, if_pos rfl]
  · rfl

/-- C6, at a request with `Accept-Encoding: gzip, deflate` and a handler that
declares `image/png` (so that the response stays uncompressed). -/
theorem C6_vary_added_before_handler_runs_witness :
    ∃ w1 : World StoredState, ∃ rest : List Event,
      w1.header.values "Vary" = freshWorld.header.values "Vary" ++ ["Accept-Encoding"] ∧
        w1.body = freshWorld.body ∧
        GzipHandler liteEnv (fun _ => declareAndWrite "image/png" [asciiBytes "PNG"]) freshWorld
            (requestAccepting "gzip, deflate") =
          (gzip.Writer.Close liteEnv.codec
              ((declareAndWrite "image/png" [asciiBytes "PNG"]).run
                (gzipResponseWriter.Write liteEnv) w1).1,
            ((declareAndWrite "image/png" [asciiBytes "PNG"]).run
              (gzipResponseWriter.Write liteEnv) w1).2) ∧
        (GzipHandler liteEnv (fun _ => declareAndWrite "image/png" [asciiBytes "PNG"]) freshWorld
            (requestAccepting "gzip, deflate")).1.trace =
          freshWorld.trace ++ Event.newWriter :: Event.serveHTTP true w1.header :: rest :=
  C6_vary_added_before_handler_runs liteEnv
    (fun _ => declareAndWrite "image/png" [asciiBytes "PNG"]) freshWorld
    (requestAccepting "gzip, deflate") (by decide)

/-- C10, at two concrete calls: one with `Content-Type: image/png` already set
and bytes that sniff as HTML, one with no `Content-Type` and the same bytes. -/
theorem C10_sniffing_gated_by_header_presence_witness :
    ((gzipResponseWriter.Write liteEnv
          { freshWorld with header := Header.empty.Set "Content-Type" "image/png" }
          (asciiBytes "<html>")).1.header.values "Content-Type" = ["image/png"] ∧
        (gzipResponseWriter.Write liteEnv
          { freshWorld with header := Header.empty.Set "Content-Type" "image/png" }
          (asciiBytes "<html>")).1.trace =
          [Event.rwWrite (Header.empty.Set "Content-Type" "image/png") (asciiBytes "<html>")]) ∧
      (gzipResponseWriter.Write liteEnv freshWorld (asciiBytes "<html>")).1.header.values
        "Content-Type" = ["text/html; charset=utf-8"] :=
  ⟨by decide,
    ((C10_sniffing_gated_by_header_presence liteEnv freshWorld (asciiBytes "<html>")).2
      (by decide)).1⟩

/-! ## More on a single `Write` (C13, C14, C17, C18) -/

theorem sniffWrite_lookup_other (E : Env σ) (w : World σ) (b : Bytes) (k : String)
    (h1 : k ≠ "Content-Type") (h2 : k ≠ "Content-Encoding") :
    (gzipResponseWriter.Write E w b).1.header.entries.lookup k = w.header.entries.lookup k := by
  rw [sniffWrite_header]
  split
  · unfold Header.Set
    rw [Header.lookup_put_ne _ _ _ _ h2]
    exact sniffedHeader_lookup_ne E w b k h1
  · exact sniffedHeader_lookup_ne E w b k h1

theorem gzWrite_empty_count (cd : Codec σ) (w : World σ) :
    (gzip.Writer.Write cd w []).2.n = 0 := by
  unfold gzip.Writer.Write
  simp only
  split
  · rfl
  · split <;> rfl

theorem rwWrite_empty (w : World σ) :
    (ResponseWriter.Write w []).2 = ⟨0, none⟩ ∧ (ResponseWriter.Write w []).1.body = w.body := by
  obtain ⟨hd, bd, rm, gz, tr⟩ := w
  cases rm <;> simp [ResponseWriter.Write, World.log, World.accept]

theorem rdropWhile_cons_of_neg (p : Char → Bool) (a : Char) (l : List Char) (h : p a = false) :
    ∃ t, (a :: l).rdropWhile p = a :: t := by
  have hpre : (a :: l).rdropWhile p <+: a :: l := List.rdropWhile_prefix p (a :: l)
  cases hr : (a :: l).rdropWhile p with
  | nil =>
    have hall := List.rdropWhile_eq_nil_iff.mp hr a (List.mem_cons_self _ _)
    rw [h] at hall
    exact absurd hall (by decide)
  | cons x t =>
    rw [hr] at hpre
    obtain ⟨hx, _⟩ := List.cons_prefix_cons.mp hpre
    exact ⟨t, by rw [hx]⟩

theorem TrimSpace_leading_semicolon (s : List Char) :
    ∃ t, strings.TrimSpace (String.mk (';' :: s)) = String.mk (';' :: t) := by
  unfold strings.TrimSpace
  have hd : (String.mk (';' :: s)).toList.dropWhile unicode.IsSpace = ';' :: s := by
    simp only [String.toList, List.dropWhile_cons]
    rfl
  rw [hd]
  obtain ⟨t, ht⟩ := rdropWhile_cons_of_neg unicode.IsSpace ';' s (by decide)
  exact ⟨t, by rw [ht]⟩

theorem allowList_no_leading_semicolon : ∀ t ∈ allowList, t.toList.head? ≠ some ';' := by
  decide

theorem index_leading_semicolon (t : List Char) :
    compressibleMimes.index (String.mk (';' :: t)) = false := by
  rw [← Bool.not_eq_true, compressibleMimes.index_iff]
  intro hm
  exact allowList_no_leading_semicolon _ hm rfl

theorem index_base_eq_index_spec (v : String) :
    compressibleMimes.index (baseContentType v) =
      compressibleMimes.index (specBaseContentType v) := by
  by_cases h : v.toList.head? = some ';'
  · obtain ⟨s⟩ := v
    cases s with
    | nil => simp at h
    | cons c s =>
      have hc : c = ';' := by simpa using h
      subst hc
      rw [baseContentType_eq, if_pos h]
      obtain ⟨t, ht⟩ := TrimSpace_leading_semicolon s
      rw [ht, index_leading_semicolon]
      have hspec : specBaseContentType (String.mk (';' :: s)) = "" := by
        unfold specBaseContentType
        have htw : (String.mk (';' :: s)).toList.takeWhile (fun c => c != ';') = [] := by
          simp [String.toList]
        rw [htw]
        decide
      rw [hspec]
      decide
  · rw [baseContentType_eq, if_neg h]
    rfl

/-- C17: although `Write` cuts the header value only at a `;` whose index is
greater than 0, looking up its base type in the allow-list gives the same
answer as looking up the specification's base type (value cut at the first
`;` wherever it stands, then trimmed), for every header value; so every
`Write` call is routed as the reference classifier would route it. -/
theorem C17_routing_agrees_with_reference_classifier (v : String) :
    compressibleMimes.index (baseContentType v) =
        compressibleMimes.index (specBaseContentType v) ∧
      ∀ (E : Env σ) (w : World σ) (b : Bytes),
        routesToGzip E w b =
          compressibleMimes.index (specBaseContentType (effectiveContentType E w b)) :=
  ⟨index_base_eq_index_spec v, fun E w b => index_base_eq_index_spec (effectiveContentType E w b)⟩

/-- C18: a `Write` call leaves every header entry other than `Content-Type`
and `Content-Encoding` (for instance `Vary` and `Content-Length`) exactly as
it was, on the gzip path and on the direct path. -/
theorem C18_write_touches_only_content_type_and_encoding (E : Env σ) (w : World σ) (b : Bytes)
    (k : String) (h1 : k ≠ "Content-Type") (h2 : k ≠ "Content-Encoding") :
    (gzipResponseWriter.Write E w b).1.header.entries.lookup k = w.header.entries.lookup k ∧
      (gzipResponseWriter.Write E w b).1.header.values k = w.header.values k ∧
      (gzipResponseWriter.Write E w b).1.header.has k = w.header.has k := by
  have hl := sniffWrite_lookup_other E w b k h1 h2
  refine ⟨hl, ?_, ?_⟩
  · unfold Header.values
    rw [hl]
  · unfold Header.has
    rw [hl]

/-- C18, for `Vary` on the gzip path (a sniffed HTML chunk) and for
`Content-Length` on the direct path (a declared `image/png`). -/
theorem C18_write_touches_only_content_type_and_encoding_witness :
    (gzipResponseWriter.Write liteEnv
        { freshWorld with header := Header.empty.Set "Vary" "Accept-Encoding" }
        (asciiBytes "<html>")).1.header.values "Vary" = ["Accept-Encoding"] ∧
      (gzipResponseWriter.Write liteEnv
        { freshWorld with
          header := (Header.empty.Set "Content-Length" "3").Set "Content-Type" "image/png" }
        (asciiBytes "PNG")).1.header.values "Content-Length" = ["3"] :=
  ⟨(C18_write_touches_only_content_type_and_encoding liteEnv
      { freshWorld with header := Header.empty.Set "Vary" "Accept-Encoding" }
      (asciiBytes "<html>") "Vary" (by decide) (by decide)).2.1,
    (C18_write_touches_only_content_type_and_encoding liteEnv
      { freshWorld with
        header := (Header.empty.Set "Content-Length" "3").Set "Content-Type" "image/png" }
      (asciiBytes "PNG") "Content-Length" (by decide) (by decide)).2.1⟩

theorem gzWrite_sticky_error (cd : Codec σ) (w : World σ) (p : Bytes) (e : String)
    (he : w.gz.err = some e) : (gzip.Writer.Write cd w p).2 = ⟨0, some e⟩ := by
  obtain ⟨hd, bd, rm, gz, tr⟩ := w
  simp only at he
  simp [gzip.Writer.Write, World.log, he]

theorem rwWrite_short (w : World σ) (b : Bytes) (k : Nat) (hr : w.room = some k)
    (hk : k < b.length) : (ResponseWriter.Write w b).2 = ⟨k, some "short write"⟩ := by
  obtain ⟨hd, bd, rm, gz, tr⟩ := w
  simp only at hr
  subst hr
  simp [ResponseWriter.Write, World.log, World.accept, Nat.not_le.mpr hk]

/-- C14: every `Write` call makes exactly one underlying `Write` call, with the
bytes it was given: on the gzip writer when the type is compressible, on the
real response writer otherwise; state and `(count, error)` result of `Write`
are those of that call.  In particular the sticky error of the gzip writer and
a short write of the real writer come back unchanged. -/
theorem C14_write_returns_underlying_result (E : Env σ) (w : World σ) (b : Bytes) :
    ((routesToGzip E w b = true ∧
          gzipResponseWriter.Write E w b =
            gzip.Writer.Write E.codec
              { w with header := (sniffedHeader E w b).Set "Content-Encoding" "gzip" } b ∧
          (gzipResponseWriter.Write E w b).1.trace =
            w.trace ++ [Event.gzWrite ((sniffedHeader E w b).Set "Content-Encoding" "gzip") b]) ∨
        (routesToGzip E w b = false ∧
          gzipResponseWriter.Write E w b =
            ResponseWriter.Write { w with header := sniffedHeader E w b } b ∧
          (gzipResponseWriter.Write E w b).1.trace =
            w.trace ++ [Event.rwWrite (sniffedHeader E w b) b])) ∧
      (∀ e : String, routesToGzip E w b = true → w.gz.err = some e →
        (gzipResponseWriter.Write E w b).2 = ⟨0, some e⟩) ∧
      (∀ k : Nat, routesToGzip E w b = false → w.room = some k → k < b.length →
        (gzipResponseWriter.Write E w b).2 = ⟨k, some "short write"⟩) := by
  have htr := sniffWrite_trace E w b
  refine ⟨?_, ?_, ?_⟩
  · by_cases h : routesToGzip E w b = true
    · left
      have h' : compressibleMimes.index (baseContentType (effectiveContentType E w b)) = true := h
      rw [if_pos h'] at htr
      exact ⟨h, sniffWrite_compressible E w b h', htr⟩
    · right
      rw [Bool.not_eq_true] at h
      have h' : compressibleMimes.index (baseContentType (effectiveContentType E w b)) = false := h
      rw [if_neg (by rw [h']; decide)] at htr
      exact ⟨h, sniffWrite_direct E w b h', htr⟩
  · intro e h he
    rw [sniffWrite_compressible E w b h]
    exact gzWrite_sticky_error E.codec _ b e he
  · intro k h hr hk
    rw [sniffWrite_direct E w b h]
    exact rwWrite_short _ b k hr hk

/-- C14, at a real writer that has room for two more bytes and a declared
`image/png`: the short write `(2, error)` comes back from `Write`. -/
theorem C14_write_returns_underlying_result_witness :
    (gzipResponseWriter.Write liteEnv
        { freshWorld with
          header := Header.empty.Set "Content-Type" "image/png", room := some 2 }
        (asciiBytes "PNG")).2 = ⟨2, some "short write"⟩ :=
  (C14_write_returns_underlying_result liteEnv
    { freshWorld with header := Header.empty.Set "Content-Type" "image/png", room := some 2 }
    (asciiBytes "PNG")).2.2 2 (by decide) rfl (by decide)

/-- C13 (as stated, refuted): an empty chunk written to a fresh response (no
`Content-Type`, no `Content-Encoding`) leaves `Content-Type` set to the type
sniffed from the empty chunk and `Content-Encoding` set to `gzip`; with
`Content-Type: text/html` declared it still adds `Content-Encoding`. -/
theorem C13_counterexample_empty_chunk_sets_headers :
    freshWorld.header.has "Content-Type" = false ∧
      freshWorld.header.has "Content-Encoding" = false ∧
      (gzipResponseWriter.Write liteEnv freshWorld []).1.header.values "Content-Type" =
        ["text/plain; charset=utf-8"] ∧
      (gzipResponseWriter.Write liteEnv freshWorld []).1.header.values "Content-Encoding" =
        ["gzip"] ∧
      (gzipResponseWriter.Write liteEnv freshWorld []).1.header ≠ freshWorld.header ∧
      (gzipResponseWriter.Write liteEnv
        { freshWorld with header := Header.empty.Set "Content-Type" "text/html" }
        []).1.header ≠ Header.empty.Set "Content-Type" "text/html" := by
  decide

/-- C13 (amended): `Write` with an empty chunk makes exactly one empty `Write`
call on the selected path and returns that call's result, whose count is 0; on
the direct path the body of the real writer does not change.  Headers other
than `Content-Type` and `Content-Encoding` stay as they were, and so does a
non-empty `Content-Type`; an absent or empty `Content-Type` becomes the type
detected from the empty chunk, and on the gzip path `Content-Encoding` becomes
`gzip`, while on the direct path it stays as it was. -/
theorem C13_empty_chunk_is_forwarded (E : Env σ) (w : World σ) :
    (gzipResponseWriter.Write E w []).2.n = 0 ∧
      ((routesToGzip E w [] = true ∧
          gzipResponseWriter.Write E w [] =
            gzip.Writer.Write E.codec
              { w with header := (sniffedHeader E w []).Set "Content-Encoding" "gzip" } [] ∧
          (gzipResponseWriter.Write E w []).1.trace =
            w.trace ++ [Event.gzWrite ((sniffedHeader E w []).Set "Content-Encoding" "gzip") []] ∧
          (gzipResponseWriter.Write E w []).1.header.values "Content-Encoding" = ["gzip"]) ∨
        (routesToGzip E w [] = false ∧
          gzipResponseWriter.Write E w [] =
            ResponseWriter.Write { w with header := sniffedHeader E w [] } [] ∧
          (gzipResponseWriter.Write E w []).1.trace =
            w.trace ++ [Event.rwWrite (sniffedHeader E w []) []] ∧
          (gzipResponseWriter.Write E w []).2 = ⟨0, none⟩ ∧
          (gzipResponseWriter.Write E w []).1.body = w.body ∧
          (gzipResponseWriter.Write E w []).1.header.entries.lookup "Content-Encoding" =
            w.header.entries.lookup "Content-Encoding")) ∧
      (w.header.Get "Content-Type" ≠ "" →
        (gzipResponseWriter.Write E w []).1.header.entries.lookup "Content-Type" =
          w.header.entries.lookup "Content-Type") ∧
      (w.header.Get "Content-Type" = "" →
        (gzipResponseWriter.Write E w []).1.header.values "Content-Type" = [E.detect []]) ∧
      ∀ k : String, k ≠ "Content-Type" → k ≠ "Content-Encoding" →
        (gzipResponseWriter.Write E w []).1.header.entries.lookup k =
          w.header.entries.lookup k := by
  have htr := sniffWrite_trace E w []
  have hhd := sniffWrite_header E w []
  by_cases h : routesToGzip E w [] = true
  · have h' : compressibleMimes.index (baseContentType (effectiveContentType E w [])) = true := h
    rw [if_pos h'] at htr hhd
    have hW := sniffWrite_compressible E w [] h'
    refine ⟨?_, Or.inl ⟨h, hW, htr, ?_⟩, ?_, ?_, fun k h1 h2 => sniffWrite_lookup_other E w [] k h1 h2⟩
    · rw [hW]
      exact gzWrite_empty_count _ _
    · rw [hhd, Header.values_Set, if_pos rfl]
    · intro hne
      rw [hhd]
      unfold Header.Set
      rw [Header.lookup_put_ne _ _ _ _ (by decide)]
      unfold sniffedHeader
      rw [if_neg hne]
    · intro he
      rw [hhd, Header.values_Set, if_neg (by decide)]
      unfold sniffedHeader
      rw [if_pos he, Header.values_Set, if_pos rfl]
  · rw [Bool.not_eq_true] at h
    have h' : compressibleMimes.index (baseContentType (effectiveContentType E w [])) = false := h
    rw [if_neg (by rw [h']; decide)] at htr hhd
    have hW := sniffWrite_direct E w [] h'
    have hE := rwWrite_empty ({ w with header := sniffedHeader E w [] } : World σ)
    refine ⟨?_, Or.inr ⟨h, hW, htr, ?_, ?_, ?_⟩, ?_, ?_,
      fun k h1 h2 => sniffWrite_lookup_other E w [] k h1 h2⟩
    · rw [hW, hE.1]
    · rw [hW, hE.1]
    · rw [hW, hE.2]
    · rw [hhd]
      exact sniffedHeader_lookup_ne E w [] _ (by decide)
    · intro hne
      rw [hhd]
      unfold sniffedHeader
      rw [if_neg hne]
    · intro he
      rw [hhd]
      unfold sniffedHeader
      rw [if_pos he, Header.values_Set, if_pos rfl]

/-! ## Runs of arbitrary handlers (C15, C16, C19) -/

theorem Prog.run_trace_all (P : Event → Prop) (wr : World σ → Bytes → World σ × WriteResult)
    (hwr : ∀ w b, ∃ es, (wr w b).1.trace = w.trace ++ es ∧ ∀ e ∈ es, P e) (p : Prog) :
    ∀ w : World σ, ∃ es, (p.run wr w).1.trace = w.trace ++ es ∧ ∀ e ∈ es, P e := by
  induction p with
  | ret => exact fun w => ⟨[], by simp [Prog.run]⟩
  | panic => exact fun w => ⟨[], by simp [Prog.run]⟩
  | setHeader key value next ih => exact fun w => ih _
  | addHeader key value next ih => exact fun w => ih _
  | delHeader key next ih => exact fun w => ih _
  | getHeader next ih => exact fun w => ih _ w
  | write b next ih =>
    intro w
    obtain ⟨es1, h1, hp1⟩ := hwr w b
    obtain ⟨es2, h2, hp2⟩ := ih (wr w b).2 (wr w b).1
    refine ⟨es1 ++ es2, ?_, ?_⟩
    · simp only [Prog.run]
      rw [h2, h1, List.append_assoc]
    · intro e he
      rcases List.mem_append.mp he with h | h
      · exact hp1 e h
      · exact hp2 e h

theorem Prog.run_keeps (key : String) (wr : World σ → Bytes → World σ × WriteResult)
    (hwr : ∀ w b, (wr w b).1.header.entries.lookup key = w.header.entries.lookup key)
    (p : Prog) :
    p.keeps key → ∀ w : World σ,
      (p.run wr w).1.header.entries.lookup key = w.header.entries.lookup key := by
  induction p with
  | ret => exact fun _ w => rfl
  | panic => exact fun _ w => rfl
  | setHeader k value next ih =>
    intro hk w
    simp only [Prog.run]
    rw [ih hk.2]
    exact Header.lookup_put_ne _ _ _ _ (Ne.symm hk.1)
  | addHeader k value next ih =>
    intro hk w
    simp only [Prog.run]
    rw [ih hk.2]
    exact Header.lookup_put_ne _ _ _ _ (Ne.symm hk.1)
  | delHeader k next ih =>
    intro hk w
    simp only [Prog.run]
    rw [ih hk.2]
    exact lookup_filter_ne _ _ _ (Ne.symm hk.1)
  | getHeader next ih =>
    intro hk w
    simp only [Prog.run]
    exact ih _ (hk _) w
  | write b next ih =>
    intro hk w
    simp only [Prog.run]
    rw [ih _ (hk _), hwr]

/-- Run of any handler against the real response writer: only direct writes
are logged, the gzip writer is not touched, and with an unlimited transport
the body grows by the bytes of those writes. -/
theorem Prog.run_direct (p : Prog) :
    ∀ w : World σ, ∃ es,
      (p.run ResponseWriter.Write w).1.trace = w.trace ++ es ∧
        (∀ e ∈ es, e.isRwWrite = true) ∧
        (p.run ResponseWriter.Write w).1.gz = w.gz ∧
        (w.room = none →
          (p.run ResponseWriter.Write w).1.room = none ∧
            (p.run ResponseWriter.Write w).1.body = w.body ++ (es.map Event.payload).flatten) := by
  induction p with
  | ret => exact fun w => ⟨[], by simp [Prog.run]⟩
  | panic => exact fun w => ⟨[], by simp [Prog.run]⟩
  | setHeader key value next ih => exact fun w => ih _
  | addHeader key value next ih => exact fun w => ih _
  | delHeader key next ih => exact fun w => ih _
  | getHeader next ih => exact fun w => ih _ w
  | write b next ih =>
    intro w
    obtain ⟨es2, h1, h2, h3, h4⟩ := ih (ResponseWriter.Write w b).2 (ResponseWriter.Write w b).1
    refine ⟨Event.rwWrite w.header b :: es2, ?_, ?_, ?_, ?_⟩
    · simp only [Prog.run]
      rw [h1, rwWrite_trace]
      simp
    · intro e he
      rcases List.mem_cons.mp he with h | h
      · rw [h]
        rfl
      · exact h2 e h
    · simp only [Prog.run]
      rw [h3, rwWrite_gz]
    · intro hr
      have hW := rwWrite_unlimited w b hr
      simp only [Prog.run]
      have hr' : (ResponseWriter.Write w b).1.room = none := by
        rw [hW]
        exact hr
      obtain ⟨h5, h6⟩ := h4 hr'
      refine ⟨h5, ?_⟩
      rw [h6, hW]
      simp [Event.payload, List.append_assoc]

theorem sniffWrite_trace_kind (E : Env σ) (w : World σ) (b : Bytes) :
    ∃ es, (gzipResponseWriter.Write E w b).1.trace = w.trace ++ es ∧
      ∀ e ∈ es, e.isGzWrite = true ∨ e.isRwWrite = true := by
  rw [sniffWrite_trace]
  split
  · refine ⟨_, rfl, ?_⟩
    intro e he
    rw [List.mem_singleton.mp he]
    exact Or.inl rfl
  · refine ⟨_, rfl, ?_⟩
    intro e he
    rw [List.mem_singleton.mp he]
    exact Or.inr rfl

theorem infix_iff_exists_strings (sub s : String) :
    sub.toList <:+: s.toList ↔ ∃ pre post : String, s = pre ++ sub ++ post := by
  constructor
  · rintro ⟨a, c, hac⟩
    refine ⟨String.mk a, String.mk c, ?_⟩
    apply String.ext
    simp only [String.data_append]
    exact hac.symm
  · rintro ⟨pre, post, rfl⟩
    exact ⟨pre.toList, post.toList, by simp [String.toList]⟩

/-- Run of a chunk-writing handler against the real response writer. -/
theorem writeChunks_unsupported (chunks : List Bytes) :
    ∀ w : World σ, w.room = none →
      (writeChunks chunks).run ResponseWriter.Write w =
        ({ w with
            body := w.body ++ chunks.flatten
            trace := w.trace ++ chunks.map (Event.rwWrite w.header) }, Outcome.returned) := by
  induction chunks with
  | nil =>
    intro w _
    simp [writeChunks, Prog.run]
  | cons c cs ih =>
    intro w hr
    simp only [writeChunks, Prog.run, rwWrite_unlimited w c hr]
    rw [ih { w with body := w.body ++ c, trace := w.trace ++ [Event.rwWrite w.header c] } hr]
    simp [List.append_assoc]

/-- Run of any handler against the real response writer, told in terms of the
chunks the handler passes to `Write`: the log gains one direct write per chunk,
in order, the gzip writer is not touched, and with an unlimited transport the
body grows by the concatenation of those chunks. -/
theorem Prog.run_direct_written (p : Prog) :
    ∀ w : World σ, ∃ es,
      (p.run ResponseWriter.Write w).1.trace = w.trace ++ es ∧
        (∀ e ∈ es, e.isRwWrite = true) ∧
        es.map Event.payload = p.written ResponseWriter.Write w ∧
        (p.run ResponseWriter.Write w).1.gz = w.gz ∧
        (w.room = none →
          (p.run ResponseWriter.Write w).1.room = none ∧
            (p.run ResponseWriter.Write w).1.body =
              w.body ++ (p.written ResponseWriter.Write w).flatten) := by
  induction p with
  | ret => exact fun w => ⟨[], by simp [Prog.run, Prog.written]⟩
  | panic => exact fun w => ⟨[], by simp [Prog.run, Prog.written]⟩
  | setHeader key value next ih => exact fun w => ih _
  | addHeader key value next ih => exact fun w => ih _
  | delHeader key next ih => exact fun w => ih _
  | getHeader next ih => exact fun w => ih _ w
  | write b next ih =>
    intro w
    obtain ⟨es2, h1, h2, h3, h4, h5⟩ :=
      ih (ResponseWriter.Write w b).2 (ResponseWriter.Write w b).1
    refine ⟨Event.rwWrite w.header b :: es2, ?_, ?_, ?_, ?_, ?_⟩
    · simp only [Prog.run]
      rw [h1, rwWrite_trace]
      simp
    · intro e he
      rcases List.mem_cons.mp he with h | h
      · rw [h]
        rfl
      · exact h2 e h
    · simp only [List.map_cons, Prog.written, h3]
      rfl
    · simp only [Prog.run]
      rw [h4, rwWrite_gz]
    · intro hr
      have hW := rwWrite_unlimited w b hr
      have hr' : (ResponseWriter.Write w b).1.room = none := by
        rw [hW]
        exact hr
      obtain ⟨h6, h7⟩ := h5 hr'
      simp only [Prog.run, Prog.written]
      refine ⟨h6, ?_⟩
      rw [h7, hW]
      simp [List.append_assoc]

theorem writeChunks_written (wr : World σ → Bytes → World σ × WriteResult)
    (chunks : List Bytes) : ∀ w : World σ, (writeChunks chunks).written wr w = chunks := by
  induction chunks with
  | nil => exact fun _ => rfl
  | cons c cs ih =>
    intro w
    simp only [writeChunks, Prog.written, ih]

/-- C15: for a request whose `Accept-Encoding` does not contain `gzip`,
`GzipHandler` is one run of the wrapped handler against the real response
writer, started from the state in which only `Vary` has been extended.  The log
is that one invocation followed by one direct write for each chunk the handler
passes to `Write`, in order, and nothing else (no gzip writer is created,
written to or closed, and its state is untouched); with an unlimited transport
the body grows by exactly the concatenation of those chunks; every header entry
other than `Vary` that the handler does not modify itself, such as
`Content-Type` and `Content-Encoding`, stays as it was.  For a handler that
declares a content type and writes a list of chunks, whatever the type, the
chunks passed are that list, the body grows by its concatenation, and the
headers are the initial ones with `Vary` extended and the declared type set. -/
theorem C15_unsupported_request_bypasses_sniffing_writer (E : Env σ) (h : Handler)
    (w : World σ) (r : Request)
    (hacc : strings.Contains (r.header.Get "Accept-Encoding") "gzip" = false) :
    GzipHandler E h w r =
        (h r).run ResponseWriter.Write
          { header := w.header.Add "Vary" "Accept-Encoding"
            body := w.body
            room := w.room
            gz := w.gz
            trace := w.trace ++
              [Event.serveHTTP false (w.header.Add "Vary" "Accept-Encoding")] } ∧
      (∃ es : List Event,
        (GzipHandler E h w r).1.trace =
            w.trace ++ Event.serveHTTP false (w.header.Add "Vary" "Accept-Encoding") :: es ∧
          (∀ e ∈ es, e.isRwWrite = true) ∧
          es.map Event.payload =
            (h r).written ResponseWriter.Write
              { header := w.header.Add "Vary" "Accept-Encoding"
                body := w.body
                room := w.room
                gz := w.gz
                trace := w.trace ++
                  [Event.serveHTTP false (w.header.Add "Vary" "Accept-Encoding")] }) ∧
      (GzipHandler E h w r).1.gz = w.gz ∧
      (w.room = none →
        (GzipHandler E h w r).1.body =
          w.body ++
            ((h r).written ResponseWriter.Write
              { header := w.header.Add "Vary" "Accept-Encoding"
                body := w.body
                room := w.room
                gz := w.gz
                trace := w.trace ++
                  [Event.serveHTTP false (w.header.Add "Vary" "Accept-Encoding")] }).flatten) ∧
      (∀ k : String, k ≠ "Vary" → (h r).keeps k →
        (GzipHandler E h w r).1.header.entries.lookup k = w.header.entries.lookup k) ∧
      (∀ (ct : String) (chunks : List Bytes), h r = declareAndWrite ct chunks →
        (h r).written ResponseWriter.Write
            { header := w.header.Add "Vary" "Accept-Encoding"
              body := w.body
              room := w.room
              gz := w.gz
              trace := w.trace ++
                [Event.serveHTTP false (w.header.Add "Vary" "Accept-Encoding")] } = chunks ∧
          (w.room = none →
            (GzipHandler E h w r).1.body = w.body ++ chunks.flatten ∧
              (GzipHandler E h w r).1.header =
                (w.header.Add "Vary" "Accept-Encoding").Set "Content-Type" ct ∧
              (GzipHandler E h w r).1.trace =
                w.trace ++ Event.serveHTTP false (w.header.Add "Vary" "Accept-Encoding") ::
                  chunks.map (Event.rwWrite
                    ((w.header.Add "Vary" "Accept-Encoding").Set "Content-Type" ct)))) := by
  have hG := GzipHandler_unsupported E h w r hacc
  obtain ⟨es, h1, h2, h3, h4, h5⟩ := Prog.run_direct_written (h r)
    ({ header := w.header.Add "Vary" "Accept-Encoding"
       body := w.body
       room := w.room
       gz := w.gz
       trace := w.trace ++ [Event.serveHTTP false (w.header.Add "Vary" "Accept-Encoding")] } :
      World σ)
  refine ⟨hG, ⟨es, ?_, h2, h3⟩, ?_, ?_, ?_, ?_⟩
  · rw [hG, h1]
    simp
  · rw [hG, h4]
  · intro hr
    rw [hG]
    exact (h5 hr).2
  · intro k hk hkeep
    rw [hG, Prog.run_keeps k ResponseWriter.Write
      (fun w b => by rw [rwWrite_header]) (h r) hkeep]
    exact Header.lookup_put_ne _ _ _ _ hk
  · intro ct chunks hh
    refine ⟨?_, ?_⟩
    · rw [hh]
      simp only [declareAndWrite, Prog.written]
      exact writeChunks_written _ _ _
    · intro hr
      rw [hG, hh]
      simp only [declareAndWrite, Prog.run]
      rw [writeChunks_unsupported chunks
        { header := (w.header.Add "Vary" "Accept-Encoding").Set "Content-Type" ct
          body := w.body
          room := w.room
          gz := w.gz
          trace := w.trace ++ [Event.serveHTTP false (w.header.Add "Vary" "Accept-Encoding")] }
        hr]
      refine ⟨rfl, rfl, ?_⟩
      simp

/-- C15, at a request with `Accept-Encoding: identity` and a handler that
declares `text/html` and writes two chunks: the body is the two chunks, the
log is the invocation and the two direct writes, and no `Content-Encoding` is
set although the type is on the allow-list. -/
theorem C15_unsupported_request_bypasses_sniffing_writer_witness :
    (GzipHandler liteEnv
        (fun _ => declareAndWrite "text/html" [asciiBytes "<html>", asciiBytes "</html>"])
        freshWorld (requestAccepting "identity")).1.body =
        freshWorld.body ++ [asciiBytes "<html>", asciiBytes "</html>"].flatten ∧
      (GzipHandler liteEnv
        (fun _ => declareAndWrite "text/html" [asciiBytes "<html>", asciiBytes "</html>"])
        freshWorld (requestAccepting "identity")).1.header =
        (freshWorld.header.Add "Vary" "Accept-Encoding").Set "Content-Type" "text/html" ∧
      (GzipHandler liteEnv
        (fun _ => declareAndWrite "text/html" [asciiBytes "<html>", asciiBytes "</html>"])
        freshWorld (requestAccepting "identity")).1.trace =
        freshWorld.trace ++
          Event.serveHTTP false (freshWorld.header.Add "Vary" "Accept-Encoding") ::
            [asciiBytes "<html>", asciiBytes "</html>"].map (Event.rwWrite
              ((freshWorld.header.Add "Vary" "Accept-Encoding").Set "Content-Type"
                "text/html")) :=
  ((C15_unsupported_request_bypasses_sniffing_writer liteEnv
    (fun _ => declareAndWrite "text/html" [asciiBytes "<html>", asciiBytes "</html>"])
    freshWorld (requestAccepting "identity") (by decide)).2.2.2.2.2
      "text/html" [asciiBytes "<html>", asciiBytes "</html>"] rfl).2 rfl

/-- C16: for a request whose `Accept-Encoding` contains `gzip`, the log of
`GzipHandler` is: one `gzip.NewWriter`, one invocation of the wrapped handler,
the handler's writes, and then exactly one `Close` of the gzip writer as the
last call.  This holds however the handler ends, and the handler's outcome
(return or panic) is also the outcome of `GzipHandler`. -/
theorem C16_gzip_writer_closed_once_after_handler (E : Env σ) (h : Handler)
    (w : World σ) (r : Request)
    (hacc : strings.Contains (r.header.Get "Accept-Encoding") "gzip" = true) :
    ∃ es : List Event,
      (GzipHandler E h w r).1.trace =
          w.trace ++ Event.newWriter ::
            Event.serveHTTP true (w.header.Add "Vary" "Accept-Encoding") ::
              (es ++ [Event.gzClose]) ∧
        (∀ e ∈ es, e.isGzWrite = true ∨ e.isRwWrite = true) ∧
        (GzipHandler E h w r).2 =
          ((h r).run (gzipResponseWriter.Write E)
            { header := w.header.Add "Vary" "Accept-Encoding"
              body := w.body
              room := w.room
              gz := { st := E.codec.init, err := none, closed := false }
              trace := w.trace ++ [Event.newWriter,
                Event.serveHTTP true (w.header.Add "Vary" "Accept-Encoding")] }).2 := by
  rw [GzipHandler_supported E h w r hacc]
  obtain ⟨es, h1, h2⟩ := Prog.run_trace_all (fun e => e.isGzWrite = true ∨ e.isRwWrite = true)
    (gzipResponseWriter.Write E) (sniffWrite_trace_kind E) (h r)
    ({ header := w.header.Add "Vary" "Accept-Encoding"
       body := w.body
       room := w.room
       gz := { st := E.codec.init, err := none, closed := false }
       trace := w.trace ++ [Event.newWriter,
         Event.serveHTTP true (w.header.Add "Vary" "Accept-Encoding")] } : World σ)
  refine ⟨es, ?_, h2, rfl⟩
  rw [gzClose_trace, h1]
  simp

/-- C16, at a handler that writes one chunk and then panics: the gzip writer
is still closed, once and last, and the panic propagates. -/
theorem C16_gzip_writer_closed_once_after_handler_witness :
    (GzipHandler liteEnv
        (fun _ => Prog.setHeader "Content-Type" "text/html"
          (Prog.write (asciiBytes "<html>") (fun _ => Prog.panic)))
        freshWorld (requestAccepting "gzip")).2 = Outcome.panicked ∧
      ∃ es : List Event,
        (GzipHandler liteEnv
          (fun _ => Prog.setHeader "Content-Type" "text/html"
            (Prog.write (asciiBytes "<html>") (fun _ => Prog.panic)))
          freshWorld (requestAccepting "gzip")).1.trace =
          freshWorld.trace ++ Event.newWriter ::
            Event.serveHTTP true (freshWorld.header.Add "Vary" "Accept-Encoding") ::
              (es ++ [Event.gzClose]) ∧
          ∀ e ∈ es, e.isGzWrite = true ∨ e.isRwWrite = true :=
  have key := C16_gzip_writer_closed_once_after_handler liteEnv
    (fun _ => Prog.setHeader "Content-Type" "text/html"
      (Prog.write (asciiBytes "<html>") (fun _ => Prog.panic)))
    freshWorld (requestAccepting "gzip") (by decide)
  ⟨by decide, key.elim fun es hes => ⟨es, hes.1, hes.2.1⟩⟩

/-- C19: the support check is a plain substring test.  When the first
`Accept-Encoding` value has the form `pre ++ "gzip" ++ post` the compression
branch is taken, and when it has no such form (in particular when the header
is absent) the pass-through branch is taken; `gzip;q=0`, `x-gzip` and
`notgzipped` all select compression. -/
theorem C19_support_check_is_plain_substring_test (E : Env σ) (h : Handler)
    (w : World σ) (r : Request) :
    ((∃ pre post : String, r.header.Get "Accept-Encoding" = pre ++ "gzip" ++ post) →
        ∃ rest, (GzipHandler E h w r).1.trace =
          w.trace ++ Event.newWriter ::
            Event.serveHTTP true (w.header.Add "Vary" "Accept-Encoding") :: rest) ∧
      ((¬ ∃ pre post : String, r.header.Get "Accept-Encoding" = pre ++ "gzip" ++ post) →
        ∃ rest, (GzipHandler E h w r).1.trace =
          w.trace ++ Event.serveHTTP false (w.header.Add "Vary" "Accept-Encoding") :: rest) ∧
      strings.Contains "gzip;q=0" "gzip" = true ∧
      strings.Contains "x-gzip" "gzip" = true ∧
      strings.Contains "notgzipped" "gzip" = true ∧
      strings.Contains ((⟨Header.empty⟩ : Request).header.Get "Accept-Encoding") "gzip" = false := by
  obtain ⟨es, hes⟩ := GzipHandler_trace E h w r
  refine ⟨?_, ?_, by decide, by decide, by decide, by decide⟩
  · intro hex
    have hacc : strings.Contains (r.header.Get "Accept-Encoding") "gzip" = true :=
      (strings.Contains_iff _ _).mpr ((infix_iff_exists_strings _ _).mpr hex)
    rw [if_pos hacc] at hes
    exact ⟨_, hes⟩
  · intro hnex
    have hacc : ¬ strings.Contains (r.header.Get "Accept-Encoding") "gzip" = true :=
      fun hc => hnex ((infix_iff_exists_strings _ _).mp ((strings.Contains_iff _ _).mp hc))
    rw [if_neg hacc] at hes
    exact ⟨_, hes⟩

/-- C19, at the values `gzip;q=0` (compression although the quality is 0) and
`deflate` (pass-through). -/
theorem C19_support_check_is_plain_substring_test_witness :
    (∃ rest, (GzipHandler liteEnv (fun _ => Prog.ret) freshWorld
        (requestAccepting "gzip;q=0")).1.trace =
        freshWorld.trace ++ Event.newWriter ::
          Event.serveHTTP true (freshWorld.header.Add "Vary" "Accept-Encoding") :: rest) ∧
      ∃ rest, (GzipHandler liteEnv (fun _ => Prog.ret) freshWorld
        (requestAccepting "deflate")).1.trace =
        freshWorld.trace ++
          Event.serveHTTP false (freshWorld.header.Add "Vary" "Accept-Encoding") :: rest :=
  ⟨(C19_support_check_is_plain_substring_test liteEnv (fun _ => Prog.ret) freshWorld
      (requestAccepting "gzip;q=0")).1 ⟨"", ";q=0", by decide⟩,
    (C19_support_check_is_plain_substring_test liteEnv (fun _ => Prog.ret) freshWorld
      (requestAccepting "deflate")).2.1
      (fun hex => absurd ((strings.Contains_iff _ _).mpr ((infix_iff_exists_strings _ _).mpr hex))
        (by decide))⟩

/-! ## Sequences of writes (C11, C12) -/

theorem Header.Get_of_lookup (h h' : Header) (k : String)
    (hl : h'.entries.lookup k = h.entries.lookup k) : h'.Get k = h.Get k := by
  unfold Header.Get Header.values
  rw [hl]

theorem sniffWrite_keeps_declared (E : Env σ) (w : World σ) (b : Bytes)
    (hne : w.header.Get "Content-Type" ≠ "") :
    (gzipResponseWriter.Write E w b).1.header.Get "Content-Type" =
      w.header.Get "Content-Type" := by
  apply Header.Get_of_lookup
  rw [sniffWrite_header, (effectiveContentType_declared E w b hne).2]
  split
  · exact Header.lookup_put_ne _ _ _ _ (by decide)
  · rfl

/-- Once `Content-Type` holds the non-empty value `v` and the handler leaves
that entry alone, every write of the run takes the path that `v` selects. -/
theorem Prog.run_sticky (E : Env σ) (v : String) (hv : v ≠ "") (p : Prog) :
    p.keeps "Content-Type" → ∀ w : World σ, w.header.Get "Content-Type" = v →
      ∃ es, (p.run (gzipResponseWriter.Write E) w).1.trace = w.trace ++ es ∧
        ∀ e ∈ es,
          (if compressibleMimes.index (baseContentType v) = true then e.isGzWrite
            else e.isRwWrite) = true := by
  induction p with
  | ret => exact fun _ w _ => ⟨[], by simp [Prog.run]⟩
  | panic => exact fun _ w _ => ⟨[], by simp [Prog.run]⟩
  | setHeader k value next ih =>
    intro hk w hw
    exact ih hk.2 _ (by
      rw [← hw]
      exact Header.Get_of_lookup _ _ _ (Header.lookup_put_ne _ _ _ _ (Ne.symm hk.1)))
  | addHeader k value next ih =>
    intro hk w hw
    exact ih hk.2 _ (by
      rw [← hw]
      exact Header.Get_of_lookup _ _ _ (Header.lookup_put_ne _ _ _ _ (Ne.symm hk.1)))
  | delHeader k next ih =>
    intro hk w hw
    exact ih hk.2 _ (by
      rw [← hw]
      exact Header.Get_of_lookup _ _ _ (lookup_filter_ne _ _ _ (Ne.symm hk.1)))
  | getHeader next ih =>
    intro hk w hw
    exact ih _ (hk _) w hw
  | write b next ih =>
    intro hk w hw
    have hne : w.header.Get "Content-Type" ≠ "" := by
      rw [hw]
      exact hv
    have heff : effectiveContentType E w b = v := by
      rw [(effectiveContentType_declared E w b hne).1, hw]
    have htr := sniffWrite_trace E w b
    rw [heff] at htr
    obtain ⟨es2, h1, h2⟩ := ih (gzipResponseWriter.Write E w b).2 (hk _)
      (gzipResponseWriter.Write E w b).1 (by rw [sniffWrite_keeps_declared E w b hne, hw])
    simp only [Prog.run]
    by_cases hc : compressibleMimes.index (baseContentType v) = true
    · rw [if_pos hc] at htr
      refine ⟨Event.gzWrite ((sniffedHeader E w b).Set "Content-Encoding" "gzip") b :: es2,
        by rw [h1, htr]; simp, ?_⟩
      intro e he
      rcases List.mem_cons.mp he with h | h
      · rw [h, if_pos hc]
        rfl
      · exact h2 e h
    · rw [if_neg hc] at htr
      refine ⟨Event.rwWrite (sniffedHeader E w b) b :: es2, by rw [h1, htr]; simp, ?_⟩
      intro e he
      rcases List.mem_cons.mp he with h | h
      · rw [h, if_neg hc]
        rfl
      · exact h2 e h

/-- C11: take a handler whose first call on the sniffing writer is `Write(b)`
and which does not modify `Content-Type` itself afterwards, and assume that the
detector gives a non-empty type for `b` in case `Content-Type` was not declared.
Then every later write of the run is routed like the first one: all of them to
the gzip writer, or all of them directly to the real response writer. -/
theorem C11_routing_is_sticky (E : Env σ) (w : World σ) (b : Bytes)
    (next : WriteResult → Prog) (hkeep : ∀ r, (next r).keeps "Content-Type")
    (hdet : w.header.Get "Content-Type" = "" → E.detect b ≠ "") :
    ∃ first rest,
      ((Prog.write b next).run (gzipResponseWriter.Write E) w).1.trace =
          w.trace ++ first :: rest ∧
        first.payload = b ∧
        (routesToGzip E w b = true →
          first.isGzWrite = true ∧ ∀ e ∈ rest, e.isGzWrite = true) ∧
        (routesToGzip E w b = false →
          first.isRwWrite = true ∧ ∀ e ∈ rest, e.isRwWrite = true) := by
  have hvne : effectiveContentType E w b ≠ "" := by
    unfold effectiveContentType
    split
    · next he => exact hdet he
    · next hne => exact hne
  have hget : (gzipResponseWriter.Write E w b).1.header.Get "Content-Type" =
      effectiveContentType E w b := by
    apply Eq.trans _ (sniffedHeader_Get E w b)
    apply Header.Get_of_lookup
    rw [sniffWrite_header]
    split
    · exact Header.lookup_put_ne _ _ _ _ (by decide)
    · rfl
  obtain ⟨es, h1, h2⟩ := Prog.run_sticky E (effectiveContentType E w b) hvne
    (next (gzipResponseWriter.Write E w b).2) (hkeep _) (gzipResponseWriter.Write E w b).1 hget
  have htr := sniffWrite_trace E w b
  simp only [Prog.run]
  by_cases hc : compressibleMimes.index (baseContentType (effectiveContentType E w b)) = true
  · rw [if_pos hc] at htr
    refine ⟨Event.gzWrite ((sniffedHeader E w b).Set "Content-Encoding" "gzip") b, es,
      by rw [h1, htr]; simp, rfl, ?_, ?_⟩
    · intro _
      refine ⟨rfl, fun e he => ?_⟩
      have := h2 e he
      rwa [if_pos hc] at this
    · intro hr
      have hr' : compressibleMimes.index (baseContentType (effectiveContentType E w b)) = false := hr
      rw [hc] at hr'
      exact absurd hr' (by decide)
  · rw [if_neg hc] at htr
    refine ⟨Event.rwWrite (sniffedHeader E w b) b, es, by rw [h1, htr]; simp, rfl, ?_, ?_⟩
    · intro hr
      exact absurd hr hc
    · intro _
      refine ⟨rfl, fun e he => ?_⟩
      have := h2 e he
      rwa [if_neg hc] at this

theorem writeChunks_keeps (key : String) (chunks : List Bytes) :
    (writeChunks chunks).keeps key := by
  induction chunks with
  | nil => exact True.intro
  | cons c cs ih => exact fun _ => ih

/-- C11, at a response without declared type: the first chunk sniffs as HTML
and goes to the gzip writer, and so does the second chunk, although on its own
it would sniff as `image/png`. -/
theorem C11_routing_is_sticky_witness :
    detectLite (asciiBytes "\x89PNG\r\n\x1a\n") = "image/png" ∧
      ∃ first rest,
        ((Prog.write (asciiBytes "<html>")
            (fun _ => writeChunks [asciiBytes "\x89PNG\r\n\x1a\n"])).run
          (gzipResponseWriter.Write liteEnv) freshWorld).1.trace =
            freshWorld.trace ++ first :: rest ∧
          first.isGzWrite = true ∧ ∀ e ∈ rest, e.isGzWrite = true :=
  have key := C11_routing_is_sticky liteEnv freshWorld (asciiBytes "<html>")
    (fun _ => writeChunks [asciiBytes "\x89PNG\r\n\x1a\n"])
    (fun _ => writeChunks_keeps _ _) (fun _ => by decide)
  ⟨by decide, key.elim fun first hf => hf.elim fun rest hr =>
    ⟨first, rest, hr.1, (hr.2.2.1 (by decide)).1, (hr.2.2.1 (by decide)).2⟩⟩

/-- Body and headers of the response to a handler that declares a compressible
type and writes at least one chunk, on the compression branch. -/
theorem GzipHandler_declared_compressed (E : Env σ) (h : Handler) (w : World σ) (r : Request)
    (ct : String) (chunks : List Bytes)
    (hacc : strings.Contains (r.header.Get "Accept-Encoding") "gzip" = true)
    (hne : ct ≠ "") (hct : compressibleMimes.index (baseContentType ct) = true)
    (hh : h r = declareAndWrite ct chunks) (hchunks : chunks ≠ []) (hroom : w.room = none) :
    (GzipHandler E h w r).1.body = w.body ++ E.codec.stream E.codec.init chunks ∧
      (GzipHandler E h w r).1.header =
        ((w.header.Add "Vary" "Accept-Encoding").Set "Content-Type" ct).Set
          "Content-Encoding" "gzip" := by
  rw [GzipHandler_supported E h w r hacc, hh]
  simp only [declareAndWrite, Prog.run]
  obtain ⟨_, h2, _, h4⟩ := writeChunks_compressed E ct hne hct chunks
    { header := (w.header.Add "Vary" "Accept-Encoding").Set "Content-Type" ct
      body := w.body
      room := w.room
      gz := { st := E.codec.init, err := none, closed := false }
      trace := w.trace ++ [Event.newWriter,
        Event.serveHTTP true (w.header.Add "Vary" "Accept-Encoding")] }
    (by rw [Header.Get_Set, if_pos rfl]) hroom rfl rfl
  rw [if_neg hchunks] at h4
  exact ⟨h2, by rw [gzClose_header, h4]⟩

/-- Body and headers of the response to a handler that declares a type and
writes chunks, on the pass-through branch. -/
theorem GzipHandler_declared_unsupported (E : Env σ) (h : Handler) (w : World σ) (r : Request)
    (ct : String) (chunks : List Bytes)
    (hacc : strings.Contains (r.header.Get "Accept-Encoding") "gzip" = false)
    (hh : h r = declareAndWrite ct chunks) (hroom : w.room = none) :
    (GzipHandler E h w r).1.body = w.body ++ chunks.flatten ∧
      (GzipHandler E h w r).1.header =
        (w.header.Add "Vary" "Accept-Encoding").Set "Content-Type" ct := by
  rw [GzipHandler_unsupported E h w r hacc, hh]
  simp only [declareAndWrite, Prog.run]
  rw [writeChunks_unsupported chunks
    { header := (w.header.Add "Vary" "Accept-Encoding").Set "Content-Type" ct
      body := w.body
      room := w.room
      gz := w.gz
      trace := w.trace ++ [Event.serveHTTP false (w.header.Add "Vary" "Accept-Encoding")] }
    hroom]
  exact ⟨rfl, rfl⟩

/-- C12: fix a declared (non-empty) `Content-Type` and a body split into one or
more chunks.  With an unlimited transport, and a gzip writer whose output for
these chunks is its output for their concatenation, the body and the headers
that the real writer holds after `GzipHandler` returns are the same as when
the handler writes the concatenation as a single chunk; this holds for
requests with and without gzip support and for compressible and other types. -/
theorem C12_chunking_does_not_change_the_output (E : Env σ) (h h1 : Handler) (w : World σ)
    (r : Request) (ct : String) (chunks : List Bytes)
    (hne : ct ≠ "") (hchunks : chunks ≠ []) (hroom : w.room = none)
    (hh : h r = declareAndWrite ct chunks) (hh1 : h1 r = declareAndWrite ct [chunks.flatten])
    (hcodec : E.codec.stream E.codec.init chunks = E.codec.stream E.codec.init [chunks.flatten]) :
    (GzipHandler E h w r).1.body = (GzipHandler E h1 w r).1.body ∧
      (GzipHandler E h w r).1.header = (GzipHandler E h1 w r).1.header := by
  by_cases hacc : strings.Contains (r.header.Get "Accept-Encoding") "gzip" = true
  · by_cases hct : compressibleMimes.index (baseContentType ct) = true
    · obtain ⟨a1, a2⟩ := GzipHandler_declared_compressed E h w r ct chunks hacc hne hct hh
        hchunks hroom
      obtain ⟨b1, b2⟩ := GzipHandler_declared_compressed E h1 w r ct [chunks.flatten] hacc hne
        hct hh1 (by simp) hroom
      exact ⟨by rw [a1, b1, hcodec], by rw [a2, b2]⟩
    · rw [Bool.not_eq_true] at hct
      obtain ⟨a1, a2⟩ := GzipHandler_declared_direct E h w r ct chunks hacc hne hct hh hroom
      obtain ⟨b1, b2⟩ := GzipHandler_declared_direct E h1 w r ct [chunks.flatten] hacc hne hct
        hh1 hroom
      exact ⟨by rw [a1, b1]; simp, by rw [a2, b2]⟩
  · rw [Bool.not_eq_true] at hacc
    obtain ⟨a1, a2⟩ := GzipHandler_declared_unsupported E h w r ct chunks hacc hh hroom
    obtain ⟨b1, b2⟩ := GzipHandler_declared_unsupported E h1 w r ct [chunks.flatten] hacc hh1
      hroom
    exact ⟨by rw [a1, b1]; simp, by rw [a2, b2]⟩

/-- C12, at scenario A: `<html></html>` written as two chunks and as one. -/
theorem C12_chunking_does_not_change_the_output_witness :
    (GzipHandler liteEnv
        (fun _ => declareAndWrite "text/html" [asciiBytes "<html>", asciiBytes "</html>"])
        freshWorld (requestAccepting "gzip")).1.body =
      (GzipHandler liteEnv
        (fun _ => declareAndWrite "text/html"
          [[asciiBytes "<html>", asciiBytes "</html>"].flatten])
        freshWorld (requestAccepting "gzip")).1.body :=
  (C12_chunking_does_not_change_the_output liteEnv
    (fun _ => declareAndWrite "text/html" [asciiBytes "<html>", asciiBytes "</html>"])
    (fun _ => declareAndWrite "text/html" [[asciiBytes "<html>", asciiBytes "</html>"].flatten])
    freshWorld (requestAccepting "gzip") "text/html" [asciiBytes "<html>", asciiBytes "</html>"]
    (by decide) (by decide) rfl rfl rfl
    (by
      show storedGzip.stream storedGzip.init _ = storedGzip.stream storedGzip.init _
      rw [storedGzip_stream_flatten, storedGzip_stream_flatten]
      simp)).1

end Gziphandler
